import Mathlib

/-!
# Netlink transport of `os_system_linux.c`

A shallow embedding of `src/src-plugins/subsystems/os_linux/os_system_linux.c`.

* Memory is byte addressed: a `Mem` gives the byte at every offset from a
  base pointer (`struct nlmsghdr *n`, `nl->in`).  Multi-byte fields are read
  and written little-endian, as on the Linux hosts the file is built for.
* Machine integers are natural numbers (or integers for `int`) with the
  wrap-around written out where the C type can wrap.
* The process-wide `_seq_used`, the handler `struct os_system_netlink`, the
  kernel socket queue and the list of callback invocations are passed
  explicitly.
* The constants and macros of `<linux/netlink.h>`, `<limits.h>` and
  `<stdint.h>` carry their Linux values.
-/

namespace Netlink

/-! ## Bytes and memory -/

/-- One octet of memory. -/
abbrev Byte := Fin 256

/-- Memory seen from a base pointer: the byte stored at each offset. -/
abbrev Mem := Nat → Byte

/-- Truncation of a number to one octet, as a store to a `char` does. -/
def byte (v : Nat) : Byte := ⟨v % 256, Nat.mod_lt _ (by decide)⟩

/-- Store of one octet at offset `a`. -/
def set8 (m : Mem) (a v : Nat) : Mem := fun i => if i = a then byte v else m i

/-- Store of a little-endian 16-bit value (`__u16`) at offset `a`. -/
def set16 (m : Mem) (a v : Nat) : Mem := set8 (set8 m a v) (a + 1) (v / 256)

/-- Store of a little-endian 32-bit value (`__u32`) at offset `a`. -/
def set32 (m : Mem) (a v : Nat) : Mem := set16 (set16 m a v) (a + 2) (v / 65536)

/-- Load of a little-endian 16-bit value (`__u16`) from offset `a`. -/
def get16 (m : Mem) (a : Nat) : Nat := (m a).val + 256 * (m (a + 1)).val

/-- Load of a little-endian 32-bit value (`__u32`) from offset `a`. -/
def get32 (m : Mem) (a : Nat) : Nat := get16 m a + 65536 * get16 m (a + 2)

/-- Load of a 32-bit two's complement value (`int`) from offset `a`. -/
def getInt32 (m : Mem) (a : Nat) : Int :=
  if get32 m a < 2 ^ 31 then (get32 m a : Int) else (get32 m a : Int) - 2 ^ 32

/-- The libc `memcpy(dst + off, src, len)`. -/
def memcpy (dst : Mem) (off : Nat) (src : Mem) (len : Nat) : Mem :=
  fun i => if off ≤ i ∧ i < off + len then src (i - off) else dst i

/-- The `len` bytes found at `p`, in address order. -/
def bytes_of (p : Mem) (len : Nat) : List Byte := (List.range len).map p

/-! ## Constants and macros of the system headers -/

/-- Constant `UIO_MAXIOV` of `<limits.h>` / `<linux/uio.h>`. -/
def UIO_MAXIOV : Nat := 1024

/-- Constant `INT32_MAX` of `<stdint.h>`. -/
def INT32_MAX : Nat := 2147483647

/-- Constant `NLMSG_ALIGNTO` of `<linux/netlink.h>` (`4U`). -/
def NLMSG_ALIGNTO : Nat := 4

/-- Macro `NLMSG_ALIGN(len)`, that is `((len)+NLMSG_ALIGNTO-1) & ~(NLMSG_ALIGNTO-1)`:
the mask `~(NLMSG_ALIGNTO-1)` is the `unsigned int` `0xFFFFFFFC`, so the result
keeps bits 2..31 of `len + 3` whether `len` is a `__u32` or a `size_t`. -/
def NLMSG_ALIGN (len : Nat) : Nat :=
  (len + NLMSG_ALIGNTO - 1) &&& (2 ^ 32 - 1 - (NLMSG_ALIGNTO - 1))

/-- Size `sizeof(struct nlmsghdr)`: `__u32 nlmsg_len; __u16 nlmsg_type;
__u16 nlmsg_flags; __u32 nlmsg_seq; __u32 nlmsg_pid`. -/
def sizeof_nlmsghdr : Nat := 16

/-- Constant `NLMSG_HDRLEN`, that is `NLMSG_ALIGN(sizeof(struct nlmsghdr))`. -/
def NLMSG_HDRLEN : Nat := NLMSG_ALIGN sizeof_nlmsghdr

/-- Constant `NLA_HDRLEN`, that is `NLA_ALIGN(sizeof(struct nlattr))` with
`struct nlattr { __u16 nla_len; __u16 nla_type; }`. -/
def NLA_HDRLEN : Nat := 4

/-- Constant `NLM_F_MULTI` of `<linux/netlink.h>`. -/
def NLM_F_MULTI : Nat := 2

/-- Constant `NLM_F_ACK` of `<linux/netlink.h>`. -/
def NLM_F_ACK : Nat := 4

/-- Constant `NLMSG_NOOP` of `<linux/netlink.h>`. -/
def NLMSG_NOOP : Nat := 1

/-- Constant `NLMSG_ERROR` of `<linux/netlink.h>`. -/
def NLMSG_ERROR : Nat := 2

/-- Constant `NLMSG_DONE` of `<linux/netlink.h>`. -/
def NLMSG_DONE : Nat := 3

/-! ## Fields of `struct nlmsghdr` and `struct nlattr` -/

/-- Field `nh->nlmsg_len` of the header at offset `nh`. -/
def nlmsg_len (m : Mem) (nh : Nat) : Nat := get32 m nh

/-- Field `nh->nlmsg_type` of the header at offset `nh`. -/
def nlmsg_type (m : Mem) (nh : Nat) : Nat := get16 m (nh + 4)

/-- Field `nh->nlmsg_flags` of the header at offset `nh`. -/
def nlmsg_flags (m : Mem) (nh : Nat) : Nat := get16 m (nh + 6)

/-- Field `nh->nlmsg_seq` of the header at offset `nh`. -/
def nlmsg_seq (m : Mem) (nh : Nat) : Nat := get32 m (nh + 8)

/-- Field `nh->nlmsg_pid` of the header at offset `nh`. -/
def nlmsg_pid (m : Mem) (nh : Nat) : Nat := get32 m (nh + 12)

/-- Field `nla->nla_len` of the attribute at offset `nla`. -/
def nla_len (m : Mem) (nla : Nat) : Nat := get16 m nla

/-- Field `nla->nla_type` of the attribute at offset `nla`. -/
def nla_type (m : Mem) (nla : Nat) : Nat := get16 m (nla + 2)

/-! ## `os_system_netlink_addreq` -/

/-- Function `os_system_netlink_addreq(n, type, data, len)` for `len >= 0`: the return
value and the message memory afterwards.  `NLA_HDRLEN + len` is the `int` sum
(its overflow is undefined in C and is not modelled); both lengths are
`size_t`, where the sum of a 32-bit and a 31-bit value cannot wrap.  The
stores to the 16-bit fields `nla_type` and `nla_len` truncate. -/
def os_system_netlink_addreq (n : Mem) (type : Int) (data : Mem) (len : Nat) : Int × Mem :=
  let aligned_msg_len := NLMSG_ALIGN (nlmsg_len n 0)
  let aligned_attr_len := NLA_HDRLEN + len
  if aligned_msg_len + aligned_attr_len > UIO_MAXIOV then
    (-1, n)
  else
    let nl_attr := aligned_msg_len
    let n := set16 n (nl_attr + 2) (type % 65536).toNat
    let n := set16 n nl_attr aligned_attr_len
    let n := set32 n 0 (aligned_msg_len + aligned_attr_len)
    let n := if len ≠ 0 then memcpy n (nl_attr + NLA_HDRLEN) data len else n
    (0, n)

/-- One call of `os_system_netlink_addreq`: its arguments apart from the message. -/
structure AddReq where
  type : Int
  data : Mem
  len : Nat

/-- The message after a sequence of `os_system_netlink_addreq` calls, whatever
each of them returned. -/
def addreq_run (n : Mem) : List AddReq → Mem
  | [] => n
  | c :: cs => addreq_run (os_system_netlink_addreq n c.type c.data c.len).2 cs

/-! ## The netlink handler and its collaborators -/

/-- Modelled from the spec: `struct os_system_netlink` (declared in
`os_system_linux.h`, which is not among the sources), with the attributes the
spec's data model gives a Netlink Handler: the outbound buffer `out`, the
inbound buffer `in` with its capacity `in_len`, the count of messages in
transit (a non-negative integer), the timeout binding (armed or not),
write-interest of the socket registration, and the callback slots
(`true` when a function is registered, `false` for a null pointer). -/
structure os_system_netlink where
  out : List Byte
  in_ : Mem
  in_len : Nat
  msg_in_transit : Nat
  timeout_active : Bool
  socket_event_write : Bool
  cb_message : Bool
  cb_error : Bool
  cb_done : Bool
  cb_timeout : Bool

/-- Modelled from the spec: `abuf_memcpy` of the Dynamic Buffer
(`common/autobuf.c` is not among the sources), "append(bytes) fails with
AllocationError on exhaustion": the `len` bytes at `p` are appended when the
allocation succeeds and the buffer is left as it was when it fails. -/
def abuf_memcpy (out : List Byte) (p : Mem) (len : Nat) (alloc_ok : Bool) : List Byte :=
  if alloc_ok then out ++ bytes_of p len else out

/-- Modelled from the spec: `abuf_clear` of the Dynamic Buffer, "clear()". -/
def abuf_clear (_out : List Byte) : List Byte := []

/-- Modelled from the spec: `oonf_socket_set_write` of the Multiplexer,
"set-write-interest(descriptor, bool)". -/
def oonf_socket_set_write (nl : os_system_netlink) (event_write : Bool) : os_system_netlink :=
  { nl with socket_event_write := event_write }

/-- Modelled from the spec: `oonf_timer_set` of the Timer Supervisor,
"arm-or-refresh(binding, duration)". -/
def oonf_timer_set (nl : os_system_netlink) : os_system_netlink :=
  { nl with timeout_active := true }

/-- Modelled from the spec: `oonf_timer_stop` of the Timer Supervisor,
"stop(binding)". -/
def oonf_timer_stop (nl : os_system_netlink) : os_system_netlink :=
  { nl with timeout_active := false }

/-- Modelled from the spec: `oonf_timer_is_active` of the Timer Supervisor,
"is-active(binding) → bool". -/
def oonf_timer_is_active (nl : os_system_netlink) : Bool := nl.timeout_active

/-- Conversion of a `uint32_t` to `int`. -/
def int_of_uint32 (v : Nat) : Int :=
  if v % 2 ^ 32 < 2 ^ 31 then ((v % 2 ^ 32 : Nat) : Int) else ((v % 2 ^ 32 : Nat) : Int) - 2 ^ 32

/-- What `os_system_netlink_send` leaves behind: the process-wide `_seq_used`,
the handler, the message header it was given, and its return value. -/
structure SendResult where
  seq_used : Nat
  nl : os_system_netlink
  nl_hdr : Mem
  ret : Int

/-- Function `os_system_netlink_send(nl, nl_hdr)`, with the process-wide `_seq_used`
passed in and the outcome of the buffer's allocation as `alloc_ok`. -/
def os_system_netlink_send (seq_used : Nat) (nl : os_system_netlink) (nl_hdr : Mem)
    (alloc_ok : Bool) : SendResult :=
  let seq_used := ((seq_used + 1) % 2 ^ 32) &&& INT32_MAX
  let nl_hdr := set32 nl_hdr 8 seq_used
  let nl_hdr := set16 nl_hdr 6 (nlmsg_flags nl_hdr 0 ||| (NLM_F_ACK ||| NLM_F_MULTI))
  let nl := { nl with out := abuf_memcpy nl.out nl_hdr (nlmsg_len nl_hdr 0) alloc_ok }
  let nl := oonf_socket_set_write nl true
  { seq_used := seq_used, nl := nl, nl_hdr := nl_hdr, ret := int_of_uint32 seq_used }

/-- An invocation of one of the handler's callbacks with its arguments; a
frame handed to `cb_message` is named by its offset in `nl->in`. -/
inductive Callback where
  | message (nh : Nat)
  | done (seq : Nat)
  | error (seq : Nat) (err : Int)
  | timeout
  deriving DecidableEq, Repr

/-- A system call on the netlink socket: `sendmsg` with the bytes of its I/O
vector, `recvmsg` with the buffer size offered and whether `MSG_PEEK` is set. -/
inductive Syscall where
  | sendmsg (data : List Byte)
  | recvmsg (buflen : Nat) (peek : Bool)
  deriving DecidableEq, Repr

/-- Answers of the environment: `getpagesize()`, whether `realloc` to a given
size succeeds, and the return value and `errno` of `sendmsg`. -/
structure Kernel where
  pagesize : Nat
  realloc_ok : Nat → Bool
  sendmsg_ret : Int
  sendmsg_errno : Int

/-- The handler together with what it acts on: the datagrams queued on its
socket (oldest first), the callback invocations made so far and the system
calls made so far. -/
structure State where
  nl : os_system_netlink
  queue : List (List Byte)
  calls : List Callback
  sys : List Syscall

/-- Ways a run ends without a result: a call through a null callback
pointer, or the fuel of a loop running out. -/
inductive Fault where
  | null_callback
  | out_of_fuel
  deriving DecidableEq, Repr

/-- Function `_cb_handle_netlink_timeout(ptr)`. -/
def _cb_handle_netlink_timeout (s : State) : State :=
  let s := if s.nl.cb_timeout then { s with calls := s.calls ++ [Callback.timeout] } else s
  { s with nl := { s.nl with msg_in_transit := 0 } }

/-- Function `_flush_netlink_buffer(nl)`: `sendmsg` is given the whole outbound buffer
(`msg_iovlen` is 1); `cb_error` is called without a null check. -/
def _flush_netlink_buffer (k : Kernel) (s : State) : Except Fault State :=
  let s := { s with sys := s.sys ++ [Syscall.sendmsg s.nl.out] }
  if k.sendmsg_ret ≤ 0 then
    if s.nl.cb_error then
      .ok { s with calls := s.calls ++ [Callback.error (nlmsg_seq s.nl.in_ 0) k.sendmsg_errno] }
    else
      .error Fault.null_callback
  else
    let nl := { s.nl with out := abuf_clear s.nl.out }
    let nl := oonf_socket_set_write nl false
    let nl := { nl with msg_in_transit := nl.msg_in_transit + 1 }
    let nl := oonf_timer_set nl
    .ok { s with nl := nl }

/-- Function `_netlink_job_finished(nl)`. -/
def _netlink_job_finished (nl : os_system_netlink) : os_system_netlink :=
  let nl := if nl.msg_in_transit > 0 then { nl with msg_in_transit := nl.msg_in_transit - 1 } else nl
  if nl.msg_in_transit = 0 then oonf_timer_stop nl else nl

/-- Constant `INT_MIN` of `<limits.h>` for the 32-bit `int`. -/
def INT_MIN : Int := -2147483648

/-- The negation `-v` of an `int`.  At `INT_MIN` the result does not fit an
`int` (a signed overflow, undefined in C); the two's complement result,
`INT_MIN` again, stands for it, so that every value passed on is an `int`. -/
def int_neg (v : Int) : Int := if v = INT_MIN then INT_MIN else -v

/-- Function `_handle_nl_err(nl, nh)`: `NLMSG_DATA(nh)` is `nh + NLMSG_HDRLEN`, where a
`struct nlmsgerr { int error; struct nlmsghdr msg; }` is read; `-err->error`
is the negation of an `int`, `int_neg`. -/
def _handle_nl_err (s : State) (nh : Nat) : State :=
  let m := s.nl.in_
  let err := nh + NLMSG_HDRLEN
  let error := getInt32 m err
  let msg := err + 4
  let s :=
    if error ≠ 0 then
      if s.nl.cb_error then { s with calls := s.calls ++ [Callback.error (nlmsg_seq m msg) (int_neg error)] }
      else s
    else
      if s.nl.cb_done then { s with calls := s.calls ++ [Callback.done (nlmsg_seq m msg)] }
      else s
  { s with nl := _netlink_job_finished s.nl }

/-- The kernel's `recvmsg` into a buffer of `buflen` bytes when datagram `d`
heads the queue: the first `min d.length buflen` bytes of `d` are stored. -/
def recv_copy (buf : Mem) (buflen : Nat) (d : List Byte) : Mem :=
  fun i => if i < min d.length buflen then d.getD i 0 else buf i

/-- The receive cycle of `_netlink_handler` from the label `netlink_rcv_retry`
on, with `peek` for `flags == MSG_PEEK`.  The result is `some ret` with the
return value of the final `recvmsg` when the handler goes on to the frame walk
and `none` when it returns (`recvmsg` failed: nothing is queued; or `realloc`
failed).  A `recvmsg` without `MSG_PEEK` removes the datagram from the queue;
`MSG_TRUNC` is reported when the datagram is longer than the buffer. -/
def netlink_rcv_retry : Nat → Kernel → State → Bool → Except Fault (Option Nat × State)
  | 0, _, _, _ => .error Fault.out_of_fuel
  | fuel + 1, k, s, peek =>
    let s := { s with sys := s.sys ++ [Syscall.recvmsg s.nl.in_len peek] }
    match s.queue with
    | [] => .ok (none, s)
    | d :: rest =>
      let ret := min d.length s.nl.in_len
      let msg_trunc := decide (s.nl.in_len < d.length)
      let s := { s with nl := { s.nl with in_ := recv_copy s.nl.in_ s.nl.in_len d },
                        queue := if peek then d :: rest else rest }
      if s.nl.in_len < ret ∨ msg_trunc = true then
        if k.realloc_ok (s.nl.in_len + k.pagesize) then
          netlink_rcv_retry fuel k
            { s with nl := { s.nl with in_len := s.nl.in_len + k.pagesize } } peek
        else
          .ok (none, s)
      else if peek then
        netlink_rcv_retry fuel k s false
      else
        .ok (some ret, s)

/-- Macro `NLMSG_OK(nh, len)` of `<linux/netlink.h>` for a `size_t len`. -/
def NLMSG_OK (m : Mem) (nh len : Nat) : Bool :=
  decide (len ≥ sizeof_nlmsghdr) && decide (nlmsg_len m nh ≥ sizeof_nlmsghdr)
    && decide (nlmsg_len m nh ≤ len)

/-- The locals of `_netlink_handler` that live across the frame loop. -/
structure Walk where
  s : State
  current_seq : Nat
  trigger_is_done : Bool

/-- The body of the frame loop of `_netlink_handler` for the frame at offset
`nh` of `nl->in` (`nh == nl->in` is `nh = 0`). -/
def frame_body (w : Walk) (nh : Nat) : Except Fault Walk :=
  let m := w.s.nl.in_
  let current_seq := if nh = 0 then nlmsg_seq m nh else w.current_seq
  let w : Walk := { w with current_seq := current_seq }
  let boundary : Except Fault Walk :=
    if current_seq ≠ nlmsg_seq m nh ∧ w.trigger_is_done = true then
      if w.s.nl.cb_done then
        .ok { w with s := { w.s with calls := w.s.calls ++ [Callback.done current_seq] },
                     trigger_is_done := false }
      else
        .error Fault.null_callback
    else
      .ok w
  match boundary with
  | .error e => .error e
  | .ok w =>
    if nlmsg_type m nh = NLMSG_NOOP then
      .ok w
    else if nlmsg_type m nh = NLMSG_DONE then
      .ok { w with trigger_is_done := true }
    else if nlmsg_type m nh = NLMSG_ERROR then
      .ok { w with trigger_is_done := false, s := _handle_nl_err w.s nh }
    else if w.s.nl.cb_message then
      .ok { w with s := { w.s with calls := w.s.calls ++ [Callback.message nh] } }
    else
      .ok w

/-- The frame loop `for (nh = nl->in; NLMSG_OK (nh, len); nh = NLMSG_NEXT (nh, len))`
from the frame at offset `nh` with `len` bytes left; `NLMSG_NEXT` subtracts
`NLMSG_ALIGN(nh->nlmsg_len)` from the `size_t len` (modulo `2^64`) and
advances `nh` by as much. -/
def frame_walk : Nat → Nat → Nat → Walk → Except Fault Walk
  | 0, nh, len, w =>
    if NLMSG_OK w.s.nl.in_ nh len then .error Fault.out_of_fuel else .ok w
  | fuel + 1, nh, len, w =>
    if NLMSG_OK w.s.nl.in_ nh len then
      match frame_body w nh with
      | .error e => .error e
      | .ok w' =>
        frame_walk fuel (nh + NLMSG_ALIGN (nlmsg_len w.s.nl.in_ nh))
          ((len + 2 ^ 64 - NLMSG_ALIGN (nlmsg_len w.s.nl.in_ nh)) % 2 ^ 64) w'
    else
      .ok w

/-- The end of `_netlink_handler`, after the frame loop. -/
def handler_finish (w : Walk) : Except Fault State :=
  let finished : Except Fault State :=
    if w.trigger_is_done then
      let nl := oonf_timer_stop w.s.nl
      if nl.cb_done then
        .ok { w.s with nl := _netlink_job_finished nl,
                       calls := w.s.calls ++ [Callback.done w.current_seq] }
      else
        .error Fault.null_callback
    else
      .ok w.s
  match finished with
  | .error e => .error e
  | .ok s => if oonf_timer_is_active s.nl then .ok { s with nl := oonf_timer_set s.nl } else .ok s

/-- Function `_netlink_handler(fd, data, event_read, event_write)`; `fuel` bounds the
iterations of each of its two loops. -/
def _netlink_handler (fuel : Nat) (k : Kernel) (s : State) (event_read event_write : Bool) :
    Except Fault State :=
  match (if event_write then _flush_netlink_buffer k s else .ok s) with
  | .error e => .error e
  | .ok s =>
    if !event_read then
      .ok s
    else
      match netlink_rcv_retry fuel k s true with
      | .error e => .error e
      | .ok (none, s) => .ok s
      | .ok (some ret, s) =>
        match frame_walk fuel 0 ret { s := s, current_seq := 0, trigger_is_done := false } with
        | .error e => .error e
        | .ok w => handler_finish w

/-! ## Notions used to state the properties -/

/-- The aligned length of a message of `len` bytes, in unbounded arithmetic:
`len` rounded up to the next multiple of `NLMSG_ALIGNTO`. -/
def aligned_length (len : Nat) : Nat :=
  (len + NLMSG_ALIGNTO - 1) / NLMSG_ALIGNTO * NLMSG_ALIGNTO

/-- Memory holding the listed octets from offset 0 on, and zero behind them. -/
def mem_of (l : List Nat) : Mem := fun i => byte (l.getD i 0)

/-- One call of `os_system_netlink_send`: the handler it is made on, the
message, and the outcome of the outbound buffer's allocation. -/
structure SendCall where
  nl : os_system_netlink
  nl_hdr : Mem
  alloc_ok : Bool

/-- The sequence numbers that consecutive calls of `os_system_netlink_send`
(on any handlers) store in their messages, the process-wide counter being
`seq_used` before the first of them. -/
def send_seqs (seq_used : Nat) : List SendCall → List Nat
  | [] => []
  | c :: cs =>
    nlmsg_seq (os_system_netlink_send seq_used c.nl c.nl_hdr c.alloc_ok).nl_hdr 0 ::
      send_seqs (os_system_netlink_send seq_used c.nl c.nl_hdr c.alloc_ok).seq_used cs

/-- Consecutive calls of `os_system_netlink_send` on one handler, one per
message (paired with the outcome of the buffer's allocation), the process-wide
counter being `seq_used` before the first: the handler afterwards, and the
messages as the calls left them. -/
def send_all (seq_used : Nat) (nl : os_system_netlink) :
    List (Mem × Bool) → os_system_netlink × List Mem
  | [] => (nl, [])
  | m :: ms =>
    ((send_all (os_system_netlink_send seq_used nl m.1 m.2).seq_used
        (os_system_netlink_send seq_used nl m.1 m.2).nl ms).1,
      (os_system_netlink_send seq_used nl m.1 m.2).nl_hdr ::
        (send_all (os_system_netlink_send seq_used nl m.1 m.2).seq_used
          (os_system_netlink_send seq_used nl m.1 m.2).nl ms).2)

/-- The header fields of a frame that decide how the frame walk treats it. -/
structure FrameHdr where
  len : Nat
  type : Nat
  seq : Nat

/-- The memory `m` holds, from offset `off` on, one frame per entry of the
list, with the entry's `nlmsg_len`, `nlmsg_type` and `nlmsg_seq`, each frame at
the aligned offset behind the one before it. -/
def frames_at (m : Mem) : Nat → List FrameHdr → Prop
  | _, [] => True
  | off, f :: fs =>
    nlmsg_len m off = f.len ∧ nlmsg_type m off = f.type ∧ nlmsg_seq m off = f.seq ∧
      frames_at m (off + NLMSG_ALIGN f.len) fs

/-- The bytes a list of frames takes, each frame padded to the alignment. -/
def frames_size : List FrameHdr → Nat
  | [] => 0
  | f :: fs => NLMSG_ALIGN f.len + frames_size fs

/-- The offsets of the frames of a list laid out from offset `off` on. -/
def frame_offsets : Nat → List FrameHdr → List Nat
  | _, [] => []
  | off, f :: fs => off :: frame_offsets (off + NLMSG_ALIGN f.len) fs

/-- The bytes of a datagram as memory (zero behind its end). -/
def datagram_mem (d : List Byte) : Mem := fun i => d.getD i 0

/-- The datagram `d` consists of the listed frames: it holds them from offset 0
on, each with a length field that covers at least the header and does not
exceed `2^32 - 4` (so that its alignment does not wrap), it ends with the
padding of the last one, and its length is one `recvmsg` can return (an
`ssize_t`). -/
def datagram_frames (d : List Byte) (fs : List FrameHdr) : Prop :=
  frames_at (datagram_mem d) 0 fs ∧ d.length = frames_size fs ∧ d.length < 2 ^ 63 ∧
    ∀ f ∈ fs, sizeof_nlmsghdr ≤ f.len ∧ f.len ≤ 2 ^ 32 - 4

/-- The callback invocations a run ends with, when it ends with a result. -/
def calls_of (r : Except Fault State) : Option (List Callback) :=
  match r with
  | .ok s => some s.calls
  | .error _ => none

/-- What the receive cycle leaves of a state `s` when it consumes the
datagram `d` that headed the queue before `rest`. -/
def Received (s s1 : State) (d : List Byte) (rest : List (List Byte)) : Prop :=
  s1.queue = rest ∧ s1.calls = s.calls ∧
    (∀ i, i < d.length → s1.nl.in_ i = datagram_mem d i) ∧
    s1.nl.out = s.nl.out ∧ s1.nl.msg_in_transit = s.nl.msg_in_transit ∧
    s1.nl.timeout_active = s.nl.timeout_active ∧
    s1.nl.socket_event_write = s.nl.socket_event_write ∧
    s1.nl.cb_message = s.nl.cb_message ∧ s1.nl.cb_error = s.nl.cb_error ∧
    s1.nl.cb_done = s.nl.cb_done ∧ s1.nl.cb_timeout = s.nl.cb_timeout


/-- A frame the walk forwards to `cb_message`: its type is none of no-op, done
and error. -/
def FrameHdr.ordinary (f : FrameHdr) : Prop :=
  f.type ≠ NLMSG_NOOP ∧ f.type ≠ NLMSG_DONE ∧ f.type ≠ NLMSG_ERROR

/-- Whether memory holds the listed frames can be computed. -/
def frames_at_decidable (m : Mem) :
    (off : Nat) → (fs : List FrameHdr) → Decidable (frames_at m off fs)
  | _, [] => isTrue trivial
  | off, f :: fs =>
    have : Decidable (frames_at m (off + NLMSG_ALIGN f.len) fs) :=
      frames_at_decidable m (off + NLMSG_ALIGN f.len) fs
    inferInstanceAs (Decidable (nlmsg_len m off = f.len ∧ nlmsg_type m off = f.type ∧
      nlmsg_seq m off = f.seq ∧ frames_at m (off + NLMSG_ALIGN f.len) fs))

instance (m : Mem) (off : Nat) (fs : List FrameHdr) : Decidable (frames_at m off fs) :=
  frames_at_decidable m off fs

instance (d : List Byte) (fs : List FrameHdr) : Decidable (datagram_frames d fs) :=
  inferInstanceAs (Decidable (frames_at (datagram_mem d) 0 fs ∧ d.length = frames_size fs ∧
    d.length < 2 ^ 63 ∧ ∀ f ∈ fs, sizeof_nlmsghdr ≤ f.len ∧ f.len ≤ 2 ^ 32 - 4))

instance (f : FrameHdr) : Decidable f.ordinary :=
  inferInstanceAs (Decidable (f.type ≠ NLMSG_NOOP ∧ f.type ≠ NLMSG_DONE ∧ f.type ≠ NLMSG_ERROR))

/-! ## Multicast groups, open and timer expiry -/

/-- Constant `NETLINK_ADD_MEMBERSHIP` of `<linux/netlink.h>`. -/
def NETLINK_ADD_MEMBERSHIP : Nat := 1

/-- Constant `NETLINK_DROP_MEMBERSHIP` of `<linux/netlink.h>`. -/
def NETLINK_DROP_MEMBERSHIP : Nat := 2

/-- One call `setsockopt(nl->socket.fd, SOL_NETLINK, optname, &group, sizeof(group))`. -/
structure Sockopt where
  optname : Nat
  group : Int
  deriving DecidableEq, Repr

/-- The loop `for (i=0; i<groupcount; i++)` that `os_system_netlink_add_mc` and
`os_system_netlink_drop_mc` share, from index `i` on with the groups left:
the return value and the `setsockopt` calls made.  The return value of the
`i`-th `setsockopt` call is `setsockopt i`. -/
def mc_loop (optname : Nat) (setsockopt : Nat → Int) : Nat → List Int → Int × List Sockopt
  | _, [] => (0, [])
  | i, g :: gs =>
    if setsockopt i ≠ 0 then
      (-1, [{ optname := optname, group := g }])
    else
      ((mc_loop optname setsockopt (i + 1) gs).1,
        { optname := optname, group := g } :: (mc_loop optname setsockopt (i + 1) gs).2)

/-- Function `os_system_netlink_add_mc(nl, groups, groupcount)` with `uint32_t` groups. -/
def os_system_netlink_add_mc (setsockopt : Nat → Int) (groups : List Nat) :
    Int × List Sockopt :=
  mc_loop NETLINK_ADD_MEMBERSHIP setsockopt 0 (groups.map Int.ofNat)

/-- Function `os_system_netlink_drop_mc(nl, groups, groupcount)` with `int` groups. -/
def os_system_netlink_drop_mc (setsockopt : Nat → Int) (groups : List Int) :
    Int × List Sockopt :=
  mc_loop NETLINK_DROP_MEMBERSHIP setsockopt 0 groups

/-- Outcomes of the calls `os_system_netlink_add` makes: the return values of
`socket`, `abuf_init` and `bind`, whether `calloc` succeeds, and
`getpagesize()`. -/
structure OpenEnv where
  socket_fd : Int
  abuf_init_ret : Int
  calloc_ok : Bool
  bind_ret : Int
  pagesize : Nat

/-- Function `os_system_netlink_add(nl, protocol)` on the handler the caller
initialized: the return value and the handler.  It sets up the socket, the
outbound buffer (empty) and a zeroed one-page inbound buffer; it does not
touch the in-transit count, and it only fills in the context and class of the
timeout binding, which it does not start.  On failure the buffers are
released. -/
def os_system_netlink_add (e : OpenEnv) (nl : os_system_netlink) : Int × os_system_netlink :=
  if e.socket_fd < 0 then
    (-1, { nl with out := [] })
  else if e.abuf_init_ret ≠ 0 then
    (-1, { nl with out := [] })
  else if !e.calloc_ok then
    (-1, { nl with out := [] })
  else
    let nl := { nl with out := [], in_ := fun _ => 0, in_len := e.pagesize }
    if e.bind_ret < 0 then
      (-1, { nl with out := [] })
    else
      (0, nl)

/-- Modelled from the spec: expiry of a binding of the Timer Supervisor
(`subsystems/oonf_timer.c` is not among the sources), "fires callback(context)
once per expiry, non-repeating until re-armed": the binding is no longer armed
and the callback of its class, `_cb_handle_netlink_timeout`, is run. -/
def oonf_timer_expire (s : State) : State :=
  _cb_handle_netlink_timeout { s with nl := oonf_timer_stop s.nl }

/-- The Idle predicate: no exchange in transit implies the timeout is not
armed. -/
def idle_inv (nl : os_system_netlink) : Prop :=
  nl.msg_in_transit = 0 → nl.timeout_active = false

/-- The Pending predicate: an exchange in transit implies the timeout is
armed. -/
def armed_inv (nl : os_system_netlink) : Prop :=
  nl.msg_in_transit > 0 → nl.timeout_active = true

instance (nl : os_system_netlink) : Decidable (idle_inv nl) :=
  inferInstanceAs (Decidable (nl.msg_in_transit = 0 → nl.timeout_active = false))

instance (nl : os_system_netlink) : Decidable (armed_inv nl) :=
  inferInstanceAs (Decidable (nl.msg_in_transit > 0 → nl.timeout_active = true))

/-- The system calls a run ends with, when it ends with a result. -/
def sys_of (r : Except Fault State) : Option (List Syscall) :=
  match r with
  | .ok s => some s.sys
  | .error _ => none

/-- The in-transit count and whether the timeout is armed at the end of a
run, when it ends with a result. -/
def transit_of (r : Except Fault State) : Option (Nat × Bool) :=
  match r with
  | .ok s => some (s.nl.msg_in_transit, s.nl.timeout_active)
  | .error _ => none

/-- Two events in a row: the second is handled in the state the first left. -/
def then_event (r : Except Fault State) (f : State → Except Fault State) : Except Fault State :=
  match r with
  | .ok s => f s
  | .error e => .error e

/-! ## Memory lemmas -/

theorem set16_apply (m : Mem) (a v i : Nat) :
    set16 m a v i = if i = a + 1 then byte (v / 256) else if i = a then byte v else m i := rfl

theorem set32_apply (m : Mem) (a v i : Nat) :
    set32 m a v i =
      if i = a + 3 then byte (v / 65536 / 256) else if i = a + 2 then byte (v / 65536)
      else if i = a + 1 then byte (v / 256) else if i = a then byte v else m i := rfl

theorem set16_outside (m : Mem) (a v i : Nat) (h : i < a ∨ a + 2 ≤ i) : set16 m a v i = m i := by
  rw [set16_apply, if_neg (by omega), if_neg (by omega)]

theorem set32_outside (m : Mem) (a v i : Nat) (h : i < a ∨ a + 4 ≤ i) : set32 m a v i = m i := by
  rw [set32_apply, if_neg (by omega), if_neg (by omega), if_neg (by omega), if_neg (by omega)]

theorem memcpy_outside (dst : Mem) (off : Nat) (src : Mem) (len i : Nat)
    (h : i < off ∨ off + len ≤ i) : memcpy dst off src len i = dst i := by
  unfold memcpy
  rw [if_neg (by omega)]

theorem memcpy_inside (dst : Mem) (off : Nat) (src : Mem) (len i : Nat) (h : i < len) :
    memcpy dst off src len (off + i) = src i := by
  unfold memcpy
  rw [if_pos (by omega)]
  congr 1
  omega

theorem get16_congr (m m' : Mem) (a : Nat) (h0 : m a = m' a) (h1 : m (a + 1) = m' (a + 1)) :
    get16 m a = get16 m' a := by
  unfold get16
  rw [h0, h1]

theorem get32_congr (m m' : Mem) (a : Nat) (h : ∀ i, a ≤ i → i < a + 4 → m i = m' i) :
    get32 m a = get32 m' a := by
  unfold get32
  rw [get16_congr m m' a (h _ (by omega) (by omega)) (h _ (by omega) (by omega)),
    get16_congr m m' (a + 2) (h _ (by omega) (by omega)) (h _ (by omega) (by omega))]

theorem get16_lt (m : Mem) (a : Nat) : get16 m a < 65536 := by
  unfold get16
  omega

theorem get32_lt (m : Mem) (a : Nat) : get32 m a < 2 ^ 32 := by
  have h0 := get16_lt m a
  have h1 := get16_lt m (a + 2)
  unfold get32
  omega

theorem get16_set16 (m : Mem) (a v : Nat) : get16 (set16 m a v) a = v % 65536 := by
  unfold get16
  rw [set16_apply, set16_apply, if_neg (by omega), if_pos rfl, if_pos rfl]
  simp only [byte]
  omega

theorem get32_set32 (m : Mem) (a v : Nat) : get32 (set32 m a v) a = v % 2 ^ 32 := by
  unfold get32 get16
  rw [set32_apply, set32_apply, set32_apply, set32_apply]
  rw [if_neg (by omega), if_neg (by omega), if_neg (by omega), if_pos rfl,
    if_neg (by omega), if_neg (by omega), if_pos rfl,
    if_neg (by omega), if_pos rfl, if_pos rfl]
  simp only [byte]
  omega

/-! ## Alignment lemmas -/

theorem testBit_align_mask (i : Nat) :
    Nat.testBit 4294967292 i = (decide (2 ≤ i) && decide (i < 32)) := by
  by_cases h : i < 32
  · interval_cases i <;> decide
  · have h2 : (4294967292 : Nat) < 2 ^ i :=
      lt_of_lt_of_le (by norm_num) (Nat.pow_le_pow_right (by norm_num) (Nat.le_of_not_lt h))
    rw [Nat.testBit_lt_two_pow h2]
    simp [h]

theorem land_align_mask (x : Nat) : x &&& 4294967292 = x % 2 ^ 32 / 4 * 4 := by
  apply Nat.eq_of_testBit_eq
  intro i
  have e : x % 2 ^ 32 / 4 * 4 = 2 ^ 2 * ((x % 2 ^ 32) >>> 2) := by
    rw [Nat.shiftRight_eq_div_pow]; omega
  rw [Nat.testBit_land, testBit_align_mask, e, Nat.testBit_mul_pow_two, Nat.testBit_shiftRight,
    Nat.testBit_mod_two_pow]
  by_cases h2 : 2 ≤ i
  · have h3 : 2 + (i - 2) = i := by omega
    simp only [h2, h3, decide_True, Bool.true_and, ge_iff_le]
    rw [Bool.and_comm]
  · simp [h2]

theorem NLMSG_ALIGN_eq (len : Nat) : NLMSG_ALIGN len = (len + 3) % 2 ^ 32 / 4 * 4 := by
  unfold NLMSG_ALIGN NLMSG_ALIGNTO
  exact land_align_mask (len + 4 - 1)

theorem NLMSG_ALIGN_eq_aligned_length (len : Nat) (h : len + NLMSG_ALIGNTO - 1 < 2 ^ 32) :
    NLMSG_ALIGN len = aligned_length len := by
  rw [NLMSG_ALIGN_eq]
  unfold aligned_length
  unfold NLMSG_ALIGNTO at *
  omega

theorem NLMSG_ALIGN_le_iff (len : Nat) (h : len ≤ UIO_MAXIOV) : NLMSG_ALIGN len ≤ UIO_MAXIOV := by
  rw [NLMSG_ALIGN_eq]
  unfold UIO_MAXIOV at *
  omega

/-! ## `os_system_netlink_addreq` -/

theorem addreq_fst (n : Mem) (type : Int) (data : Mem) (len : Nat) :
    (os_system_netlink_addreq n type data len).1 =
      if NLMSG_ALIGN (nlmsg_len n 0) + (NLA_HDRLEN + len) > UIO_MAXIOV then -1 else 0 := by
  unfold os_system_netlink_addreq
  simp only []
  split <;> rfl

theorem addreq_snd_reject (n : Mem) (type : Int) (data : Mem) (len : Nat)
    (h : NLMSG_ALIGN (nlmsg_len n 0) + (NLA_HDRLEN + len) > UIO_MAXIOV) :
    (os_system_netlink_addreq n type data len).2 = n := by
  unfold os_system_netlink_addreq
  simp only []
  rw [if_pos h]

theorem addreq_snd_accept (n : Mem) (type : Int) (data : Mem) (len : Nat)
    (h : ¬ NLMSG_ALIGN (nlmsg_len n 0) + (NLA_HDRLEN + len) > UIO_MAXIOV) (i : Nat) :
    (os_system_netlink_addreq n type data len).2 i =
      memcpy (set32 (set16 (set16 n (NLMSG_ALIGN (nlmsg_len n 0) + 2) (type % 65536).toNat)
          (NLMSG_ALIGN (nlmsg_len n 0)) (NLA_HDRLEN + len)) 0
          (NLMSG_ALIGN (nlmsg_len n 0) + (NLA_HDRLEN + len)))
        (NLMSG_ALIGN (nlmsg_len n 0) + NLA_HDRLEN) data len i := by
  unfold os_system_netlink_addreq
  simp only []
  rw [if_neg h]
  by_cases hl : len = 0
  · subst hl
    simp only [ne_eq, not_true_eq_false, if_false]
    rw [memcpy_outside _ _ _ _ _ (by omega)]
  · simp only [ne_eq, hl, not_false_eq_true, if_true]

theorem addreq_nlmsg_len (n : Mem) (type : Int) (data : Mem) (len : Nat)
    (h : ¬ NLMSG_ALIGN (nlmsg_len n 0) + (NLA_HDRLEN + len) > UIO_MAXIOV) :
    nlmsg_len (os_system_netlink_addreq n type data len).2 0 =
      NLMSG_ALIGN (nlmsg_len n 0) + NLA_HDRLEN + len := by
  unfold nlmsg_len
  rw [get32_congr _ (set32 (set16 (set16 n (NLMSG_ALIGN (get32 n 0) + 2) (type % 65536).toNat)
          (NLMSG_ALIGN (get32 n 0)) (NLA_HDRLEN + len)) 0
          (NLMSG_ALIGN (get32 n 0) + (NLA_HDRLEN + len))) 0, get32_set32]
  · unfold nlmsg_len UIO_MAXIOV at h
    omega
  · intro i _ hi
    have := addreq_snd_accept n type data len h i
    unfold nlmsg_len at this
    rw [this, memcpy_outside]
    unfold NLA_HDRLEN
    omega

/-- C1: `os_system_netlink_addreq` returns -1 exactly when the new length
`NLMSG_ALIGN(nlmsg_len) + NLA_HDRLEN + len`, rounded up to the alignment, exceeds
`UIO_MAXIOV`; that rounding is `NLMSG_ALIGN` itself whenever the new length fits
the 32-bit macro; a call that does not return -1 returns 0; and a rejected call
leaves every byte of the message, its length field included, as it was. -/
theorem addreq_fails_iff_too_large (n : Mem) (type : Int) (data : Mem) (len : Nat) :
    ((os_system_netlink_addreq n type data len).1 = -1 ↔
        aligned_length (NLMSG_ALIGN (nlmsg_len n 0) + NLA_HDRLEN + len) > UIO_MAXIOV) ∧
    (NLMSG_ALIGN (nlmsg_len n 0) + NLA_HDRLEN + len + NLMSG_ALIGNTO - 1 < 2 ^ 32 →
        ((os_system_netlink_addreq n type data len).1 = -1 ↔
          NLMSG_ALIGN (NLMSG_ALIGN (nlmsg_len n 0) + NLA_HDRLEN + len) > UIO_MAXIOV)) ∧
    ((os_system_netlink_addreq n type data len).1 = -1 ∨
        (os_system_netlink_addreq n type data len).1 = 0) ∧
    ((os_system_netlink_addreq n type data len).1 = -1 →
        (os_system_netlink_addreq n type data len).2 = n ∧
        nlmsg_len (os_system_netlink_addreq n type data len).2 0 = nlmsg_len n 0) := by
  have key : (os_system_netlink_addreq n type data len).1 = -1 ↔
      aligned_length (NLMSG_ALIGN (nlmsg_len n 0) + NLA_HDRLEN + len) > UIO_MAXIOV := by
    rw [addreq_fst]
    unfold aligned_length NLMSG_ALIGNTO UIO_MAXIOV
    split
    · constructor
      · intro _; omega
      · intro _; rfl
    · constructor
      · intro h; exact absurd h (by decide)
      · intro h; omega
  refine ⟨key, ?_, ?_, ?_⟩
  · intro hfit
    rw [NLMSG_ALIGN_eq_aligned_length _ hfit]
    exact key
  · rw [addreq_fst]
    split
    · exact Or.inl rfl
    · exact Or.inr rfl
  · intro h
    rw [addreq_fst] at h
    split at h
    · rename_i hgt
      rw [addreq_snd_reject n type data len hgt]
      exact ⟨rfl, rfl⟩
    · exact absurd h (by decide)

/-- C1, at a concrete message: a header with length 1020 and an attribute of
8 data bytes is rejected and left untouched. -/
theorem addreq_fails_iff_too_large_witness :
    (os_system_netlink_addreq (mem_of [252, 3, 0, 0]) 1 (mem_of []) 8).1 = -1 ∧
    (os_system_netlink_addreq (mem_of [252, 3, 0, 0]) 1 (mem_of []) 8).2 = mem_of [252, 3, 0, 0] :=
  have h := addreq_fails_iff_too_large (mem_of [252, 3, 0, 0]) 1 (mem_of []) 8
  have h1 : (os_system_netlink_addreq (mem_of [252, 3, 0, 0]) 1 (mem_of []) 8).1 = -1 :=
    h.1.mpr (by decide)
  ⟨h1, (h.2.2.2 h1).1⟩

theorem addreq_keeps_aligned_le (n : Mem) (type : Int) (data : Mem) (len : Nat)
    (h : NLMSG_ALIGN (nlmsg_len n 0) ≤ UIO_MAXIOV) :
    NLMSG_ALIGN (nlmsg_len (os_system_netlink_addreq n type data len).2 0) ≤ UIO_MAXIOV := by
  by_cases hgt : NLMSG_ALIGN (nlmsg_len n 0) + (NLA_HDRLEN + len) > UIO_MAXIOV
  · rw [addreq_snd_reject n type data len hgt]
    exact h
  · rw [addreq_nlmsg_len n type data len hgt]
    apply NLMSG_ALIGN_le_iff
    unfold NLA_HDRLEN at *
    omega

theorem addreq_run_keeps_aligned_le (calls : List AddReq) :
    ∀ n : Mem, NLMSG_ALIGN (nlmsg_len n 0) ≤ UIO_MAXIOV →
      NLMSG_ALIGN (nlmsg_len (addreq_run n calls) 0) ≤ UIO_MAXIOV := by
  induction calls with
  | nil => intro n h; exact h
  | cons c cs ih =>
    intro n h
    exact ih _ (addreq_keeps_aligned_le n c.type c.data c.len h)

/-- C2: starting from a message whose aligned length `NLMSG_ALIGN(nlmsg_len)` is
at most `UIO_MAXIOV`, after the first `k` calls of any sequence of
`os_system_netlink_addreq` calls (accepted or rejected), for every `k`, the
aligned length is still at most `UIO_MAXIOV`. -/
theorem addreq_sequence_never_exceeds_maximum (n : Mem) (calls : List AddReq) (k : Nat)
    (h : NLMSG_ALIGN (nlmsg_len n 0) ≤ UIO_MAXIOV) :
    NLMSG_ALIGN (nlmsg_len (addreq_run n (calls.take k)) 0) ≤ UIO_MAXIOV :=
  addreq_run_keeps_aligned_le (calls.take k) n h

/-- C2, at a concrete message: a bare 16-byte header that is given a 1000-byte
attribute (accepted) and then a 100-byte one (rejected). -/
theorem addreq_sequence_never_exceeds_maximum_witness :
    NLMSG_ALIGN (nlmsg_len (mem_of [16, 0, 0, 0]) 0) ≤ UIO_MAXIOV ∧
    NLMSG_ALIGN (nlmsg_len (addreq_run (mem_of [16, 0, 0, 0])
      ([⟨1, mem_of [], 1000⟩, ⟨2, mem_of [], 100⟩].take 2)) 0) ≤ UIO_MAXIOV :=
  ⟨by decide, addreq_sequence_never_exceeds_maximum (mem_of [16, 0, 0, 0])
    [⟨1, mem_of [], 1000⟩, ⟨2, mem_of [], 100⟩] 2 (by decide)⟩

/-- C3 as amended: after an accepted call the attribute at offset
`NLMSG_ALIGN(nlmsg_len)` has `nla_len = NLA_HDRLEN + len`, its `len` data bytes
equal the data given, the length field is
`NLMSG_ALIGN(nlmsg_len) + NLA_HDRLEN + len`, every byte before the attribute
other than the length field is unchanged, and, when the attribute lies behind
the length field (`NLA_HDRLEN ≤ NLMSG_ALIGN(nlmsg_len)`), `nla_type` is the type
given modulo `2^16`, so the type itself when that is between 0 and 65535. -/
theorem addreq_appends_attribute (n : Mem) (type : Int) (data : Mem) (len : Nat)
    (hacc : (os_system_netlink_addreq n type data len).1 = 0) :
    nla_len (os_system_netlink_addreq n type data len).2 (NLMSG_ALIGN (nlmsg_len n 0))
        = NLA_HDRLEN + len ∧
    (∀ i, i < len →
      (os_system_netlink_addreq n type data len).2
        (NLMSG_ALIGN (nlmsg_len n 0) + NLA_HDRLEN + i) = data i) ∧
    nlmsg_len (os_system_netlink_addreq n type data len).2 0
        = NLMSG_ALIGN (nlmsg_len n 0) + NLA_HDRLEN + len ∧
    (∀ i, i < NLMSG_ALIGN (nlmsg_len n 0) → 4 ≤ i →
      (os_system_netlink_addreq n type data len).2 i = n i) ∧
    (NLA_HDRLEN ≤ NLMSG_ALIGN (nlmsg_len n 0) →
      (nla_type (os_system_netlink_addreq n type data len).2 (NLMSG_ALIGN (nlmsg_len n 0)) : Int)
          = type % 65536 ∧
      (0 ≤ type → type < 65536 →
        (nla_type (os_system_netlink_addreq n type data len).2 (NLMSG_ALIGN (nlmsg_len n 0)) : Int)
          = type)) := by
  have hle : ¬ NLMSG_ALIGN (nlmsg_len n 0) + (NLA_HDRLEN + len) > UIO_MAXIOV := by
    intro hgt
    rw [addreq_fst, if_pos hgt] at hacc
    exact absurd hacc (by decide)
  have hmem := addreq_snd_accept n type data len hle
  have hA : NLMSG_ALIGN (nlmsg_len n 0) % 4 = 0 := by
    rw [NLMSG_ALIGN_eq]; omega
  have hbound : NLMSG_ALIGN (nlmsg_len n 0) + (4 + len) ≤ 1024 := by
    unfold UIO_MAXIOV NLA_HDRLEN at hle; omega
  refine ⟨?_, ?_, addreq_nlmsg_len n type data len hle, ?_, ?_⟩
  · -- nla_len
    unfold nla_len get16
    rw [hmem, hmem, memcpy_outside _ _ _ _ _ (by unfold NLA_HDRLEN; omega),
      memcpy_outside _ _ _ _ _ (by unfold NLA_HDRLEN; omega)]
    simp only [set32_apply, set16_apply, byte, NLA_HDRLEN]
    split_ifs <;> (try simp only []) <;> first | omega | contradiction
  · intro i hi
    rw [hmem]
    exact memcpy_inside _ _ _ _ _ hi
  · intro i hi h4
    rw [hmem, memcpy_outside _ _ _ _ _ (by omega), set32_outside _ _ _ _ (by omega),
      set16_outside _ _ _ _ (by omega), set16_outside _ _ _ _ (by omega)]
  · intro hoff
    unfold NLA_HDRLEN at hoff
    have hty : (nla_type (os_system_netlink_addreq n type data len).2
        (NLMSG_ALIGN (nlmsg_len n 0)) : Int) = type % 65536 := by
      unfold nla_type
      rw [get16_congr _ (set16 n (NLMSG_ALIGN (nlmsg_len n 0) + 2) (type % 65536).toNat) _
        ?_ ?_, get16_set16]
      · have h1 : 0 ≤ type % 65536 := Int.emod_nonneg _ (by decide)
        have h2 : type % 65536 < 65536 := Int.emod_lt_of_pos _ (by decide)
        omega
      · rw [hmem, memcpy_outside _ _ _ _ _ (by unfold NLA_HDRLEN; omega),
          set32_outside _ _ _ _ (by omega), set16_outside _ _ _ _ (by omega)]
      · rw [hmem, memcpy_outside _ _ _ _ _ (by unfold NLA_HDRLEN; omega),
          set32_outside _ _ _ _ (by omega), set16_outside _ _ _ _ (by omega)]
    refine ⟨hty, ?_⟩
    intro h0 h1
    rw [hty]
    exact Int.emod_eq_of_lt h0 h1

/-- C3 as amended, at a concrete message: a bare 16-byte header that is given
an attribute of type 3 with two data bytes. -/
theorem addreq_appends_attribute_witness :
    (os_system_netlink_addreq (mem_of [16, 0, 0, 0]) 3 (mem_of [170, 187]) 2).1 = 0 ∧
    nla_len (os_system_netlink_addreq (mem_of [16, 0, 0, 0]) 3 (mem_of [170, 187]) 2).2
        (NLMSG_ALIGN (nlmsg_len (mem_of [16, 0, 0, 0]) 0)) = NLA_HDRLEN + 2 ∧
    (nla_type (os_system_netlink_addreq (mem_of [16, 0, 0, 0]) 3 (mem_of [170, 187]) 2).2
        (NLMSG_ALIGN (nlmsg_len (mem_of [16, 0, 0, 0]) 0)) : Int) = 3 :=
  have h := addreq_appends_attribute (mem_of [16, 0, 0, 0]) 3 (mem_of [170, 187]) 2 (by decide)
  ⟨by decide, h.1, (h.2.2.2.2 (by decide)).2 (by decide) (by decide)⟩

/-- C3 as stated fails: an accepted attribute of type 65537 on a bare 16-byte
header is stored with `nla_type` 1 (the field has 16 bits), and an accepted
attribute of type 3 on a message whose length field is 0 is written over by the
new length field, so that `nla_type` at offset `NLMSG_ALIGN(0) = 0` reads 0. -/
theorem addreq_appends_attribute_counterexample :
    ((os_system_netlink_addreq (mem_of [16, 0, 0, 0]) 65537 (mem_of []) 0).1 = 0 ∧
      nla_type (os_system_netlink_addreq (mem_of [16, 0, 0, 0]) 65537 (mem_of []) 0).2
        (NLMSG_ALIGN (nlmsg_len (mem_of [16, 0, 0, 0]) 0)) = 1 ∧
      ((nla_type (os_system_netlink_addreq (mem_of [16, 0, 0, 0]) 65537 (mem_of []) 0).2
        (NLMSG_ALIGN (nlmsg_len (mem_of [16, 0, 0, 0]) 0)) : Nat) : Int) ≠ 65537) ∧
    ((os_system_netlink_addreq (mem_of []) 3 (mem_of [170, 187]) 2).1 = 0 ∧
      nla_type (os_system_netlink_addreq (mem_of []) 3 (mem_of [170, 187]) 2).2
        (NLMSG_ALIGN (nlmsg_len (mem_of []) 0)) = 0 ∧
      ((nla_type (os_system_netlink_addreq (mem_of []) 3 (mem_of [170, 187]) 2).2
        (NLMSG_ALIGN (nlmsg_len (mem_of []) 0)) : Nat) : Int) ≠ 3) := by
  decide

/-! ## `os_system_netlink_send` -/

theorem send_seq_used (c : Nat) (nl : os_system_netlink) (nl_hdr : Mem) (alloc_ok : Bool) :
    (os_system_netlink_send c nl nl_hdr alloc_ok).seq_used = (c + 1) % 2 ^ 31 := by
  unfold os_system_netlink_send
  simp only []
  have h : INT32_MAX = 2 ^ 31 - 1 := by unfold INT32_MAX; norm_num
  rw [h, Nat.and_pow_two_sub_one_eq_mod]
  omega

theorem send_nl_hdr_apply (c : Nat) (nl : os_system_netlink) (nl_hdr : Mem) (alloc_ok : Bool)
    (i : Nat) :
    (os_system_netlink_send c nl nl_hdr alloc_ok).nl_hdr i =
      set16 (set32 nl_hdr 8 ((c + 1) % 2 ^ 31)) 6
        (nlmsg_flags nl_hdr 0 ||| (NLM_F_ACK ||| NLM_F_MULTI)) i := by
  have h := send_seq_used c nl nl_hdr alloc_ok
  unfold os_system_netlink_send at h ⊢
  simp only [] at h ⊢
  rw [h]
  congr 2

theorem send_nlmsg_seq (c : Nat) (nl : os_system_netlink) (nl_hdr : Mem) (alloc_ok : Bool) :
    nlmsg_seq (os_system_netlink_send c nl nl_hdr alloc_ok).nl_hdr 0 = (c + 1) % 2 ^ 31 := by
  unfold nlmsg_seq
  rw [get32_congr _ (set32 nl_hdr 8 ((c + 1) % 2 ^ 31)) (0 + 8), get32_set32]
  · omega
  · intro i h1 h2
    rw [send_nl_hdr_apply, set16_outside _ _ _ _ (by omega)]

theorem send_ret (c : Nat) (nl : os_system_netlink) (nl_hdr : Mem) (alloc_ok : Bool) :
    (os_system_netlink_send c nl nl_hdr alloc_ok).ret = (((c + 1) % 2 ^ 31 : Nat) : Int) := by
  have h := send_seq_used c nl nl_hdr alloc_ok
  unfold os_system_netlink_send at h ⊢
  simp only [] at h ⊢
  rw [h]
  unfold int_of_uint32
  have h1 : (c + 1) % 2 ^ 31 % 2 ^ 32 = (c + 1) % 2 ^ 31 := by omega
  rw [h1, if_pos (by omega)]

theorem send_seqs_eq (calls : List SendCall) :
    ∀ c : Nat, send_seqs c calls =
      (List.range calls.length).map (fun i => (c + 1 + i) % 2 ^ 31) := by
  induction calls with
  | nil => intro c; rfl
  | cons x cs ih =>
    intro c
    simp only [send_seqs, List.length_cons]
    rw [send_nlmsg_seq, send_seq_used, ih, List.range_succ_eq_map, List.map_cons, List.map_map]
    congr 1
    apply List.map_congr_left
    intro i _
    simp only [Function.comp, Nat.succ_eq_add_one]
    omega

/-- C4: with the process-wide counter at `c`, `os_system_netlink_send` assigns
`(c + 1) mod 2^31` (to the counter and to `nlmsg_seq`); the number assigned by
the next call, on whatever handler, is the previous one plus 1 modulo `2^31`;
every number assigned in a run of consecutive calls lies in `[0, 2^31 - 1]`;
and a run of at most `2^31` consecutive calls is assigned pairwise distinct
numbers. -/
theorem send_sequence_numbers (c : Nat) (calls : List SendCall)
    (hrun : calls.length ≤ 2 ^ 31) :
    (∀ x : SendCall,
      (os_system_netlink_send c x.nl x.nl_hdr x.alloc_ok).seq_used = (c + 1) % 2 ^ 31 ∧
      nlmsg_seq (os_system_netlink_send c x.nl x.nl_hdr x.alloc_ok).nl_hdr 0 = (c + 1) % 2 ^ 31) ∧
    (∀ x y : SendCall,
      nlmsg_seq (os_system_netlink_send
          (os_system_netlink_send c x.nl x.nl_hdr x.alloc_ok).seq_used
          y.nl y.nl_hdr y.alloc_ok).nl_hdr 0 =
        (nlmsg_seq (os_system_netlink_send c x.nl x.nl_hdr x.alloc_ok).nl_hdr 0 + 1) % 2 ^ 31) ∧
    (∀ i, i < calls.length → (send_seqs c calls).getD i 0 = (c + 1 + i) % 2 ^ 31) ∧
    (∀ s, s ∈ send_seqs c calls → s ≤ 2 ^ 31 - 1) ∧
    (send_seqs c calls).Nodup := by
  refine ⟨fun x => ⟨send_seq_used _ _ _ _, send_nlmsg_seq _ _ _ _⟩, ?_, ?_, ?_, ?_⟩
  · intro x y
    rw [send_nlmsg_seq, send_nlmsg_seq, send_seq_used]
  · intro i hi
    rw [send_seqs_eq, List.getD_eq_getElem _ _ (by simpa using hi)]
    simp
  · intro s hs
    rw [send_seqs_eq] at hs
    obtain ⟨i, _, rfl⟩ := List.mem_map.mp hs
    omega
  · rw [send_seqs_eq]
    apply List.Nodup.map_on _ (List.nodup_range _)
    intro i hi j hj hij
    rw [List.mem_range] at hi hj
    omega

/-- C4, at a concrete run: two consecutive calls from counter value
`2^31 - 2`, where the counter wraps. -/
theorem send_sequence_numbers_witness :
    send_seqs 2147483646
      [⟨⟨[], mem_of [], 0, 0, false, false, false, false, false, false⟩, mem_of [16], true⟩,
       ⟨⟨[], mem_of [], 0, 0, false, false, false, false, false, false⟩, mem_of [16], true⟩]
      = [2147483647, 0] ∧
    (send_seqs 2147483646
      [⟨⟨[], mem_of [], 0, 0, false, false, false, false, false, false⟩, mem_of [16], true⟩,
       ⟨⟨[], mem_of [], 0, 0, false, false, false, false, false, false⟩, mem_of [16], true⟩]).Nodup :=
  ⟨by decide, (send_sequence_numbers 2147483646
      [⟨⟨[], mem_of [], 0, 0, false, false, false, false, false, false⟩, mem_of [16], true⟩,
       ⟨⟨[], mem_of [], 0, 0, false, false, false, false, false, false⟩, mem_of [16], true⟩]
      (by decide)).2.2.2.2⟩

theorem testBit_ack_multi (j : Nat) :
    (NLM_F_ACK ||| NLM_F_MULTI).testBit j = (decide (j = 1) || decide (j = 2)) := by
  by_cases h : j < 3
  · interval_cases j <;> decide
  · have h2 : NLM_F_ACK ||| NLM_F_MULTI < 2 ^ j :=
      lt_of_lt_of_le (show NLM_F_ACK ||| NLM_F_MULTI < 2 ^ 3 by decide)
        (Nat.pow_le_pow_right (by norm_num) (Nat.le_of_not_lt h))
    rw [Nat.testBit_lt_two_pow h2]
    have h3 : j ≠ 1 := by omega
    have h4 : j ≠ 2 := by omega
    simp [h3, h4]

/-- C5: the value `os_system_netlink_send` returns is the sequence number it
stored in `nlmsg_seq`, a non-negative `int`; the flags afterwards are the old
flags with `NLM_F_ACK` and `NLM_F_MULTI` set and every other bit as before; the
length, type and originator id of the header and every byte behind the header
are unchanged. -/
theorem send_header_effect (c : Nat) (nl : os_system_netlink) (nl_hdr : Mem) (alloc_ok : Bool) :
    (os_system_netlink_send c nl nl_hdr alloc_ok).ret =
        ((nlmsg_seq (os_system_netlink_send c nl nl_hdr alloc_ok).nl_hdr 0 : Nat) : Int) ∧
    0 ≤ (os_system_netlink_send c nl nl_hdr alloc_ok).ret ∧
    (os_system_netlink_send c nl nl_hdr alloc_ok).ret ≤ (INT32_MAX : Int) ∧
    nlmsg_flags (os_system_netlink_send c nl nl_hdr alloc_ok).nl_hdr 0 =
        nlmsg_flags nl_hdr 0 ||| (NLM_F_ACK ||| NLM_F_MULTI) ∧
    (∀ j, (nlmsg_flags (os_system_netlink_send c nl nl_hdr alloc_ok).nl_hdr 0).testBit j =
        ((nlmsg_flags nl_hdr 0).testBit j || (decide (j = 1) || decide (j = 2)))) ∧
    nlmsg_len (os_system_netlink_send c nl nl_hdr alloc_ok).nl_hdr 0 = nlmsg_len nl_hdr 0 ∧
    nlmsg_type (os_system_netlink_send c nl nl_hdr alloc_ok).nl_hdr 0 = nlmsg_type nl_hdr 0 ∧
    nlmsg_pid (os_system_netlink_send c nl nl_hdr alloc_ok).nl_hdr 0 = nlmsg_pid nl_hdr 0 ∧
    (∀ i, sizeof_nlmsghdr ≤ i →
      (os_system_netlink_send c nl nl_hdr alloc_ok).nl_hdr i = nl_hdr i) := by
  have hout : ∀ i, i < 6 ∨ 12 ≤ i →
      (os_system_netlink_send c nl nl_hdr alloc_ok).nl_hdr i = nl_hdr i := by
    intro i hi
    rw [send_nl_hdr_apply, set16_outside _ _ _ _ (by omega), set32_outside _ _ _ _ (by omega)]
  have hflags : nlmsg_flags (os_system_netlink_send c nl nl_hdr alloc_ok).nl_hdr 0 =
      nlmsg_flags nl_hdr 0 ||| (NLM_F_ACK ||| NLM_F_MULTI) := by
    have hlt : nlmsg_flags nl_hdr 0 ||| (NLM_F_ACK ||| NLM_F_MULTI) < 2 ^ 16 :=
      Nat.or_lt_two_pow (get16_lt _ _) (by decide)
    conv_lhs => unfold nlmsg_flags
    rw [get16_congr _ (set16 (set32 nl_hdr 8 ((c + 1) % 2 ^ 31)) (0 + 6)
      (nlmsg_flags nl_hdr 0 ||| (NLM_F_ACK ||| NLM_F_MULTI))) (0 + 6)
      (send_nl_hdr_apply _ _ _ _ _) (send_nl_hdr_apply _ _ _ _ _), get16_set16]
    omega
  refine ⟨?_, ?_, ?_, hflags, ?_, ?_, ?_, ?_, ?_⟩
  · rw [send_ret, send_nlmsg_seq]
  · rw [send_ret]; omega
  · rw [send_ret]; unfold INT32_MAX; omega
  · intro j
    rw [hflags, Nat.testBit_or, testBit_ack_multi]
  · unfold nlmsg_len
    exact get32_congr _ _ _ (fun i _ h => hout i (by omega))
  · unfold nlmsg_type
    exact get16_congr _ _ _ (hout _ (by omega)) (hout _ (by omega))
  · unfold nlmsg_pid
    exact get32_congr _ _ _ (fun i h _ => hout i (by omega))
  · intro i hi
    unfold sizeof_nlmsghdr at hi
    exact hout i (by omega)

theorem send_nl_out (c : Nat) (nl : os_system_netlink) (nl_hdr : Mem) :
    (os_system_netlink_send c nl nl_hdr true).nl.out =
      nl.out ++ bytes_of (os_system_netlink_send c nl nl_hdr true).nl_hdr
        (nlmsg_len (os_system_netlink_send c nl nl_hdr true).nl_hdr 0) := rfl

theorem send_nl_cb_error (c : Nat) (nl : os_system_netlink) (nl_hdr : Mem) (alloc_ok : Bool) :
    (os_system_netlink_send c nl nl_hdr alloc_ok).nl.cb_error = nl.cb_error := rfl

theorem send_all_out (msgs : List (Mem × Bool)) :
    ∀ (c : Nat) (nl : os_system_netlink), (∀ m ∈ msgs, m.2 = true) →
      (send_all c nl msgs).1.out =
        nl.out ++ ((send_all c nl msgs).2.map (fun m => bytes_of m (nlmsg_len m 0))).flatten ∧
      (send_all c nl msgs).1.cb_error = nl.cb_error := by
  induction msgs with
  | nil => intro c nl _; simp [send_all]
  | cons m ms ih =>
    intro c nl h
    have hm : m.2 = true := h m (List.mem_cons_self _ _)
    have hms : ∀ x ∈ ms, x.2 = true := fun x hx => h x (List.mem_cons_of_mem _ hx)
    obtain ⟨h1, h2⟩ := ih (os_system_netlink_send c nl m.1 m.2).seq_used
      (os_system_netlink_send c nl m.1 m.2).nl hms
    simp only [send_all, List.map_cons, List.flatten_cons]
    rw [h1, h2, send_nl_cb_error]
    refine ⟨?_, rfl⟩
    rw [hm, send_nl_out, List.append_assoc]

/-- C10: when the timeout fires on a handler with any in-transit count, the
callbacks invoked are `cb_timeout` once if it is registered and none if it is
not, and afterwards the in-transit count is 0. -/
theorem timeout_resets_in_transit (s : State) :
    (_cb_handle_netlink_timeout s).calls =
        s.calls ++ (if s.nl.cb_timeout then [Callback.timeout] else []) ∧
    (_cb_handle_netlink_timeout s).nl.msg_in_transit = 0 := by
  unfold _cb_handle_netlink_timeout
  cases h : s.nl.cb_timeout <;> simp

/-! ## The receive cycle -/

theorem recv_copy_apply (buf : Mem) (buflen : Nat) (d : List Byte) (i : Nat)
    (h : d.length ≤ buflen) (hi : i < d.length) : recv_copy buf buflen d i = datagram_mem d i := by
  unfold recv_copy datagram_mem
  rw [if_pos (by omega)]

theorem rcv_consume (fuel : Nat) (k : Kernel) (s : State) (d : List Byte)
    (rest : List (List Byte)) (hq : s.queue = d :: rest) (hlen : d.length ≤ s.nl.in_len) :
    ∃ s1, netlink_rcv_retry (fuel + 1) k s false = .ok (some d.length, s1) ∧
      Received s s1 d rest := by
  unfold netlink_rcv_retry
  simp only [hq]
  have h1 : ¬ (s.nl.in_len < min d.length s.nl.in_len ∨ decide (s.nl.in_len < d.length) = true) := by
    simp only [decide_eq_true_eq]; omega
  rw [if_neg h1]
  simp only [Bool.false_eq_true, if_false]
  rw [Nat.min_eq_left hlen]
  exact ⟨_, rfl, rfl, rfl, fun i hi => recv_copy_apply _ _ _ _ hlen hi,
    rfl, rfl, rfl, rfl, rfl, rfl, rfl, rfl⟩

theorem rcv_peek (k : Kernel) (d : List Byte) (rest : List (List Byte))
    (hpage : 0 < k.pagesize) (hrealloc : ∀ n, k.realloc_ok n = true) :
    ∀ (fuel : Nat) (s : State), s.queue = d :: rest →
      d.length + 2 ≤ fuel + s.nl.in_len → 2 ≤ fuel →
      ∃ s1, netlink_rcv_retry fuel k s true = .ok (some d.length, s1) ∧ Received s s1 d rest := by
  intro fuel
  induction fuel with
  | zero => intro s _ _ h; omega
  | succ fuel ih =>
    intro s hq hfuel h2
    unfold netlink_rcv_retry
    simp only [hq]
    by_cases hlt : s.nl.in_len < d.length
    · have h1 : (s.nl.in_len < min d.length s.nl.in_len ∨
          decide (s.nl.in_len < d.length) = true) := by
        right; simp only [decide_eq_true_eq]; exact hlt
      rw [if_pos h1, hrealloc]
      simp only [if_true]
      obtain ⟨s1, hs1, hr⟩ := ih
        { nl := { out := s.nl.out, in_ := recv_copy s.nl.in_ s.nl.in_len d,
                  in_len := s.nl.in_len + k.pagesize, msg_in_transit := s.nl.msg_in_transit,
                  timeout_active := s.nl.timeout_active,
                  socket_event_write := s.nl.socket_event_write,
                  cb_message := s.nl.cb_message, cb_error := s.nl.cb_error,
                  cb_done := s.nl.cb_done, cb_timeout := s.nl.cb_timeout },
          queue := d :: rest, calls := s.calls,
          sys := s.sys ++ [Syscall.recvmsg s.nl.in_len true] }
        rfl (by simp only []; omega) (by omega)
      exact ⟨s1, hs1, hr⟩
    · have h1 : ¬ (s.nl.in_len < min d.length s.nl.in_len ∨
          decide (s.nl.in_len < d.length) = true) := by
        simp only [decide_eq_true_eq]; omega
      rw [if_neg h1]
      simp only [if_true]
      obtain ⟨fuel', rfl⟩ : ∃ f, fuel = f + 1 := ⟨fuel - 1, by omega⟩
      obtain ⟨s1, hs1, hr⟩ := rcv_consume fuel' k
        { nl := { out := s.nl.out, in_ := recv_copy s.nl.in_ s.nl.in_len d,
                  in_len := s.nl.in_len, msg_in_transit := s.nl.msg_in_transit,
                  timeout_active := s.nl.timeout_active,
                  socket_event_write := s.nl.socket_event_write,
                  cb_message := s.nl.cb_message, cb_error := s.nl.cb_error,
                  cb_done := s.nl.cb_done, cb_timeout := s.nl.cb_timeout },
          queue := d :: rest, calls := s.calls,
          sys := s.sys ++ [Syscall.recvmsg s.nl.in_len true] }
        d rest rfl (by simp only []; omega)
      exact ⟨s1, hs1, hr⟩

/-! ## The frame walk -/

theorem NLMSG_ALIGN_ge (len : Nat) (h : len ≤ 2 ^ 32 - 4) :
    len ≤ NLMSG_ALIGN len ∧ NLMSG_ALIGN len < len + 4 ∧ NLMSG_ALIGN len % 4 = 0 := by
  rw [NLMSG_ALIGN_eq]
  omega

theorem frame_walk_stop (fuel nh len : Nat) (w : Walk)
    (h : NLMSG_OK w.s.nl.in_ nh len = false) : frame_walk fuel nh len w = .ok w := by
  cases fuel <;> simp [frame_walk, h]

theorem frame_walk_step (fuel nh len : Nat) (w w' : Walk)
    (h : NLMSG_OK w.s.nl.in_ nh len = true) (hb : frame_body w nh = .ok w') :
    frame_walk (fuel + 1) nh len w =
      frame_walk fuel (nh + NLMSG_ALIGN (nlmsg_len w.s.nl.in_ nh))
        ((len + 2 ^ 64 - NLMSG_ALIGN (nlmsg_len w.s.nl.in_ nh)) % 2 ^ 64) w' := by
  rw [frame_walk]
  simp only [h, if_true, hb]

theorem NLMSG_OK_of_frame (m : Mem) (nh len : Nat) (f : FrameHdr) (hlen : nlmsg_len m nh = f.len)
    (h16 : sizeof_nlmsghdr ≤ f.len) (hmax : f.len ≤ 2 ^ 32 - 4) (hfit : NLMSG_ALIGN f.len ≤ len) :
    NLMSG_OK m nh len = true := by
  have := NLMSG_ALIGN_ge f.len hmax
  unfold NLMSG_OK
  rw [hlen]
  simp only [Bool.and_eq_true, decide_eq_true_eq]
  unfold sizeof_nlmsghdr at *
  omega

theorem frame_body_ordinary (w : Walk) (nh S : Nat)
    (hseq : nlmsg_seq w.s.nl.in_ nh = S) (hcur : nh = 0 ∨ w.current_seq = S)
    (h1 : nlmsg_type w.s.nl.in_ nh ≠ NLMSG_NOOP) (h2 : nlmsg_type w.s.nl.in_ nh ≠ NLMSG_DONE)
    (h3 : nlmsg_type w.s.nl.in_ nh ≠ NLMSG_ERROR) :
    frame_body w nh = .ok
      { s := { w.s with calls := w.s.calls ++
                (if w.s.nl.cb_message then [Callback.message nh] else []) },
        current_seq := S, trigger_is_done := w.trigger_is_done } := by
  have hc : (if nh = 0 then S else w.current_seq) = S := by
    rcases hcur with h | h
    · rw [if_pos h]
    · rw [h, ite_self]
  unfold frame_body
  simp only [hseq]
  simp only [hc, hseq, ne_eq, not_true_eq_false, false_and, if_false, h1, h2, h3]
  cases hm : w.s.nl.cb_message <;> simp

theorem frame_body_done (w : Walk) (nh S : Nat)
    (hseq : nlmsg_seq w.s.nl.in_ nh = S) (hcur : nh = 0 ∨ w.current_seq = S)
    (h : nlmsg_type w.s.nl.in_ nh = NLMSG_DONE) :
    frame_body w nh = .ok { s := w.s, current_seq := S, trigger_is_done := true } := by
  have hc : (if nh = 0 then S else w.current_seq) = S := by
    rcases hcur with h | h
    · rw [if_pos h]
    · rw [h, ite_self]
  unfold frame_body
  simp only [hseq]
  simp only [hc, hseq, ne_eq, not_true_eq_false, false_and, if_false, h]
  simp [NLMSG_DONE, NLMSG_NOOP]

theorem frame_body_error (w : Walk) (nh S : Nat)
    (hseq : nlmsg_seq w.s.nl.in_ nh = S) (hcur : nh = 0 ∨ w.current_seq = S)
    (h : nlmsg_type w.s.nl.in_ nh = NLMSG_ERROR) :
    frame_body w nh = .ok
      { s := _handle_nl_err w.s nh, current_seq := S, trigger_is_done := false } := by
  have hc : (if nh = 0 then S else w.current_seq) = S := by
    rcases hcur with h | h
    · rw [if_pos h]
    · rw [h, ite_self]
  unfold frame_body
  simp only [hseq]
  simp only [hc, hseq, ne_eq, not_true_eq_false, false_and, if_false, h]
  simp [NLMSG_DONE, NLMSG_NOOP, NLMSG_ERROR]

theorem frames_size_cons (f : FrameHdr) (fs : List FrameHdr) :
    frames_size (f :: fs) = NLMSG_ALIGN f.len + frames_size fs := rfl

theorem frames_at_cons (m : Mem) (off : Nat) (f : FrameHdr) (fs : List FrameHdr) :
    frames_at m off (f :: fs) ↔
      nlmsg_len m off = f.len ∧ nlmsg_type m off = f.type ∧ nlmsg_seq m off = f.seq ∧
        frames_at m (off + NLMSG_ALIGN f.len) fs := Iff.rfl

theorem frame_offsets_cons (off : Nat) (f : FrameHdr) (fs : List FrameHdr) :
    frame_offsets off (f :: fs) = off :: frame_offsets (off + NLMSG_ALIGN f.len) fs := rfl

theorem frames_size_append (fs gs : List FrameHdr) :
    frames_size (fs ++ gs) = frames_size fs + frames_size gs := by
  induction fs with
  | nil => simp [frames_size]
  | cons f fs ih =>
    rw [List.cons_append, frames_size_cons, frames_size_cons, ih]
    omega

theorem frames_at_append (m : Mem) (fs gs : List FrameHdr) :
    ∀ off, frames_at m off (fs ++ gs) ↔
      frames_at m off fs ∧ frames_at m (off + frames_size fs) gs := by
  induction fs with
  | nil => intro off; simp [frames_at, frames_size]
  | cons f fs ih =>
    intro off
    rw [List.cons_append, frames_at_cons, frames_at_cons, frames_size_cons, ih, Nat.add_assoc]
    simp only [and_assoc]

theorem frames_size_ge (fs : List FrameHdr)
    (h : ∀ f ∈ fs, sizeof_nlmsghdr ≤ f.len ∧ f.len ≤ 2 ^ 32 - 4) :
    16 * fs.length ≤ frames_size fs := by
  induction fs with
  | nil => simp [frames_size]
  | cons f fs ih =>
    have hf := h f (List.mem_cons_self _ _)
    have := NLMSG_ALIGN_ge f.len hf.2
    have := ih (fun g hg => h g (List.mem_cons_of_mem _ hg))
    rw [frames_size_cons, List.length_cons]
    unfold sizeof_nlmsghdr at hf
    omega

theorem frames_at_congr (m m' : Mem) (fs : List FrameHdr) :
    ∀ off, (∀ i, i < off + frames_size fs → m' i = m i) →
      (∀ f ∈ fs, sizeof_nlmsghdr ≤ f.len ∧ f.len ≤ 2 ^ 32 - 4) →
      frames_at m off fs → frames_at m' off fs := by
  induction fs with
  | nil => intro off _ _ _; trivial
  | cons f fs ih =>
    intro off hm hf h
    obtain ⟨h1, h2, h3, h4⟩ := h
    have hf0 := hf f (List.mem_cons_self _ _)
    have hA := NLMSG_ALIGN_ge f.len hf0.2
    unfold sizeof_nlmsghdr at hf0
    rw [frames_size_cons] at hm
    refine ⟨?_, ?_, ?_, ?_⟩
    · rw [← h1]
      unfold nlmsg_len
      exact get32_congr _ _ _ (fun i _ _ => hm i (by omega))
    · rw [← h2]
      unfold nlmsg_type
      exact get16_congr _ _ _ (hm _ (by omega)) (hm _ (by omega))
    · rw [← h3]
      unfold nlmsg_seq
      exact get32_congr _ _ _ (fun i _ _ => hm i (by omega))
    · exact ih _ (fun i hi => hm i (by omega)) (fun g hg => hf g (List.mem_cons_of_mem _ hg)) h4

theorem frame_body_ordinary_ex (w : Walk) (nh S : Nat)
    (hseq : nlmsg_seq w.s.nl.in_ nh = S) (hcur : nh = 0 ∨ w.current_seq = S)
    (h1 : nlmsg_type w.s.nl.in_ nh ≠ NLMSG_NOOP) (h2 : nlmsg_type w.s.nl.in_ nh ≠ NLMSG_DONE)
    (h3 : nlmsg_type w.s.nl.in_ nh ≠ NLMSG_ERROR) :
    ∃ w', frame_body w nh = .ok w' ∧ w'.s.nl = w.s.nl ∧ w'.s.queue = w.s.queue ∧
      w'.s.sys = w.s.sys ∧
      w'.s.calls = w.s.calls ++ (if w.s.nl.cb_message then [Callback.message nh] else []) ∧
      w'.trigger_is_done = w.trigger_is_done ∧ w'.current_seq = S :=
  ⟨_, frame_body_ordinary w nh S hseq hcur h1 h2 h3, rfl, rfl, rfl, rfl, rfl, rfl⟩

theorem frame_walk_ordinary (S : Nat) (fs : List FrameHdr) :
    ∀ (fuel off len : Nat) (w : Walk),
      frames_at w.s.nl.in_ off fs →
      (∀ f ∈ fs, f.ordinary ∧ f.seq = S) →
      (∀ f ∈ fs, sizeof_nlmsghdr ≤ f.len ∧ f.len ≤ 2 ^ 32 - 4) →
      (off = 0 ∨ w.current_seq = S) → frames_size fs ≤ len → len < 2 ^ 64 →
      ∃ w', frame_walk (fuel + fs.length) off len w =
          frame_walk fuel (off + frames_size fs) (len - frames_size fs) w' ∧
        w'.s.nl = w.s.nl ∧ w'.s.queue = w.s.queue ∧ w'.s.sys = w.s.sys ∧
        w'.s.calls = w.s.calls ++
          (if w.s.nl.cb_message then (frame_offsets off fs).map Callback.message else []) ∧
        w'.trigger_is_done = w.trigger_is_done ∧
        (off + frames_size fs = 0 ∨ w'.current_seq = S) := by
  induction fs with
  | nil =>
    intro fuel off len w _ _ _ hcur _ _
    refine ⟨w, rfl, rfl, rfl, rfl, ?_, rfl, ?_⟩
    · cases w.s.nl.cb_message <;> simp [frame_offsets]
    · simpa [frames_size] using hcur
  | cons f fs ih =>
    intro fuel off len w hat hord hlen hcur hsize hlt
    obtain ⟨h1, h2, h3, h4⟩ := hat
    have hf := hlen f (List.mem_cons_self _ _)
    have ho := hord f (List.mem_cons_self _ _)
    have hA := NLMSG_ALIGN_ge f.len hf.2
    rw [frames_size_cons] at hsize
    have hok : NLMSG_OK w.s.nl.in_ off len = true :=
      NLMSG_OK_of_frame _ _ _ f h1 hf.1 hf.2 (by omega)
    obtain ⟨w1, hbody, hnl1, hq1, hsys1, hcalls1, htrig1, hcur1⟩ :=
      frame_body_ordinary_ex w off S (h3.trans ho.2) hcur
        (by rw [h2]; exact ho.1.1) (by rw [h2]; exact ho.1.2.1) (by rw [h2]; exact ho.1.2.2)
    have hstep := frame_walk_step (fuel + fs.length) off len w w1 hok hbody
    rw [h1] at hstep
    have hlen' : (len + 2 ^ 64 - NLMSG_ALIGN f.len) % 2 ^ 64 = len - NLMSG_ALIGN f.len := by
      omega
    rw [hlen'] at hstep
    obtain ⟨w', hw, hnl, hq, hsys, hcalls, htrig, hcur'⟩ := ih fuel (off + NLMSG_ALIGN f.len)
      (len - NLMSG_ALIGN f.len) w1 (by rw [hnl1]; exact h4)
      (fun g hg => hord g (List.mem_cons_of_mem _ hg))
      (fun g hg => hlen g (List.mem_cons_of_mem _ hg)) (Or.inr hcur1) (by omega) (by omega)
    refine ⟨w', ?_, hnl.trans hnl1, hq.trans hq1, hsys.trans hsys1, ?_, htrig.trans htrig1, ?_⟩
    · rw [List.length_cons, ← Nat.add_assoc, hstep, hw, frames_size_cons]
      congr 1
      · omega
      · omega
    · rw [hcalls, hcalls1, hnl1, frame_offsets_cons]
      cases w.s.nl.cb_message <;> simp
    · right
      rcases hcur' with h | h
      · unfold sizeof_nlmsghdr at hf
        omega
      · exact h

theorem frame_offsets_length (fs : List FrameHdr) :
    ∀ off, (frame_offsets off fs).length = fs.length := by
  induction fs with
  | nil => intro off; rfl
  | cons f fs ih => intro off; rw [frame_offsets_cons, List.length_cons, List.length_cons, ih]

theorem NLMSG_OK_zero (m : Mem) (nh : Nat) : NLMSG_OK m nh 0 = false := by
  unfold NLMSG_OK sizeof_nlmsghdr
  simp

theorem job_finished_in_transit (nl : os_system_netlink) :
    (_netlink_job_finished nl).msg_in_transit = nl.msg_in_transit - 1 := by
  unfold _netlink_job_finished
  by_cases h0 : nl.msg_in_transit > 0
  · simp only [h0, if_true]
    split
    · simp only [oonf_timer_stop]
    · rfl
  · simp only [h0, if_false]
    split
    · simp only [oonf_timer_stop]; omega
    · omega

theorem job_finished_fields (nl : os_system_netlink) :
    (_netlink_job_finished nl).out = nl.out ∧ (_netlink_job_finished nl).in_ = nl.in_ ∧
    (_netlink_job_finished nl).in_len = nl.in_len ∧
    (_netlink_job_finished nl).socket_event_write = nl.socket_event_write ∧
    (_netlink_job_finished nl).cb_message = nl.cb_message ∧
    (_netlink_job_finished nl).cb_error = nl.cb_error ∧
    (_netlink_job_finished nl).cb_done = nl.cb_done ∧
    (_netlink_job_finished nl).cb_timeout = nl.cb_timeout := by
  unfold _netlink_job_finished
  by_cases h0 : nl.msg_in_transit > 0
  · simp only [h0, if_true]
    split <;> simp [oonf_timer_stop]
  · simp only [h0, if_false]
    split <;> simp [oonf_timer_stop]

theorem handler_finish_done (w : Walk) (htrig : w.trigger_is_done = true)
    (hcb : w.s.nl.cb_done = true) :
    ∃ s', handler_finish w = .ok s' ∧
      s'.calls = w.s.calls ++ [Callback.done w.current_seq] ∧
      s'.nl.msg_in_transit = w.s.nl.msg_in_transit - 1 ∧
      s'.queue = w.s.queue ∧ s'.sys = w.s.sys := by
  have hcb' : (oonf_timer_stop w.s.nl).cb_done = true := hcb
  have hfin : (_netlink_job_finished (oonf_timer_stop w.s.nl)).msg_in_transit =
      w.s.nl.msg_in_transit - 1 := job_finished_in_transit _
  unfold handler_finish
  simp only [htrig, if_true, hcb']
  split
  · exact ⟨_, rfl, rfl, hfin, rfl, rfl⟩
  · exact ⟨_, rfl, rfl, hfin, rfl, rfl⟩

theorem handler_finish_idle (w : Walk) (htrig : w.trigger_is_done = false) :
    ∃ s', handler_finish w = .ok s' ∧ s'.calls = w.s.calls ∧
      s'.nl.msg_in_transit = w.s.nl.msg_in_transit ∧
      s'.queue = w.s.queue ∧ s'.sys = w.s.sys := by
  unfold handler_finish
  simp only [htrig, Bool.false_eq_true, if_false]
  split
  · exact ⟨_, rfl, rfl, rfl, rfl, rfl⟩
  · exact ⟨_, rfl, rfl, rfl, rfl, rfl⟩

theorem handle_nl_err_calls (s : State) (nh : Nat) :
    (_handle_nl_err s nh).calls = s.calls ++
      (if getInt32 s.nl.in_ (nh + NLMSG_HDRLEN) ≠ 0 then
        (if s.nl.cb_error then
          [Callback.error (nlmsg_seq s.nl.in_ (nh + NLMSG_HDRLEN + 4))
            (int_neg (getInt32 s.nl.in_ (nh + NLMSG_HDRLEN)))]
        else [])
      else
        (if s.nl.cb_done then [Callback.done (nlmsg_seq s.nl.in_ (nh + NLMSG_HDRLEN + 4))]
        else [])) := by
  unfold _handle_nl_err
  simp only []
  split
  · split <;> simp
  · split <;> simp

theorem handle_nl_err_state (s : State) (nh : Nat) :
    (_handle_nl_err s nh).nl = _netlink_job_finished s.nl ∧
    (_handle_nl_err s nh).queue = s.queue ∧ (_handle_nl_err s nh).sys = s.sys := by
  unfold _handle_nl_err
  simp only []
  split <;> split <;> exact ⟨rfl, rfl, rfl⟩

/-- C9 as amended: processing an error frame whose result code is zero on a
handler with in-transit count at least 1 invokes `cb_done` exactly once, with
the sequence number of the original header echoed in the frame, when `cb_done`
is registered, and invokes no callback when it is not; `cb_error` is not
invoked; the in-transit count goes down by exactly 1. -/
theorem ack_frame_finalizes_exchange (s : State) (nh : Nat)
    (hzero : getInt32 s.nl.in_ (nh + NLMSG_HDRLEN) = 0)
    (htransit : 1 ≤ s.nl.msg_in_transit) :
    (_handle_nl_err s nh).calls = s.calls ++
      (if s.nl.cb_done then [Callback.done (nlmsg_seq s.nl.in_ (nh + NLMSG_HDRLEN + 4))]
       else []) ∧
    (_handle_nl_err s nh).nl.msg_in_transit + 1 = s.nl.msg_in_transit := by
  refine ⟨?_, ?_⟩
  · rw [handle_nl_err_calls, hzero]
    simp
  · rw [(handle_nl_err_state s nh).1, job_finished_in_transit]
    omega

/-- C9 as amended, at a concrete frame: a 36-byte error frame with result code
0 and echoed sequence number 9, on a handler with one message in transit and
`cb_done` registered. -/
theorem ack_frame_finalizes_exchange_witness :
    (_handle_nl_err
      ⟨⟨[], mem_of [36, 0, 0, 0, 2, 0, 0, 0, 9, 0, 0, 0, 0, 0, 0, 0, 0, 0, 0, 0,
          16, 0, 0, 0, 24, 0, 1, 0, 9, 0, 0, 0, 0, 0, 0, 0],
        4096, 1, true, false, true, true, true, false⟩, [], [], []⟩ 0).calls
      = [] ++ (if true then [Callback.done 9] else []) ∧
    (_handle_nl_err
      ⟨⟨[], mem_of [36, 0, 0, 0, 2, 0, 0, 0, 9, 0, 0, 0, 0, 0, 0, 0, 0, 0, 0, 0,
          16, 0, 0, 0, 24, 0, 1, 0, 9, 0, 0, 0, 0, 0, 0, 0],
        4096, 1, true, false, true, true, true, false⟩, [], [], []⟩ 0).nl.msg_in_transit + 1 = 1 :=
  ack_frame_finalizes_exchange
    ⟨⟨[], mem_of [36, 0, 0, 0, 2, 0, 0, 0, 9, 0, 0, 0, 0, 0, 0, 0, 0, 0, 0, 0,
        16, 0, 0, 0, 24, 0, 1, 0, 9, 0, 0, 0, 0, 0, 0, 0],
      4096, 1, true, false, true, true, true, false⟩, [], [], []⟩ 0 (by decide) (by decide)

/-- C9 as stated fails: on a handler with one message in transit and no
`cb_done` registered, processing an error frame with result code 0 invokes no
callback at all, so `cb_done` is not invoked once. -/
theorem ack_frame_finalizes_exchange_counterexample :
    getInt32 (mem_of [36, 0, 0, 0, 2, 0, 0, 0, 9, 0, 0, 0, 0, 0, 0, 0, 0, 0, 0, 0,
        16, 0, 0, 0, 24, 0, 1, 0, 9, 0, 0, 0, 0, 0, 0, 0]) (0 + NLMSG_HDRLEN) = 0 ∧
    (_handle_nl_err
      ⟨⟨[], mem_of [36, 0, 0, 0, 2, 0, 0, 0, 9, 0, 0, 0, 0, 0, 0, 0, 0, 0, 0, 0,
          16, 0, 0, 0, 24, 0, 1, 0, 9, 0, 0, 0, 0, 0, 0, 0],
        4096, 1, true, false, true, true, false, false⟩, [], [], []⟩ 0).calls = [] := by
  decide

theorem NLMSG_HDRLEN_eq : NLMSG_HDRLEN = 16 := by decide

theorem getInt32_congr (m m' : Mem) (a : Nat) (h : ∀ i, a ≤ i → i < a + 4 → m i = m' i) :
    getInt32 m a = getInt32 m' a := by
  unfold getInt32
  rw [get32_congr m m' a h]

theorem getInt32_range (m : Mem) (a : Nat) :
    -2147483648 ≤ getInt32 m a ∧ getInt32 m a ≤ 2147483647 := by
  have h := get32_lt m a
  unfold getInt32
  split_ifs <;> omega

theorem mc_loop_spec (optname : Nat) (setsockopt : Nat → Int) (groups : List Int) :
    ∀ i : Nat, ∃ n, n ≤ groups.length ∧
      (mc_loop optname setsockopt i groups).2 =
        (groups.take n).map (fun g => ({ optname := optname, group := g } : Sockopt)) ∧
      (∀ j, j + 1 < n → setsockopt (i + j) = 0) ∧
      (((mc_loop optname setsockopt i groups).1 = 0 ∧ n = groups.length ∧
          ∀ j, j < n → setsockopt (i + j) = 0) ∨
        ((mc_loop optname setsockopt i groups).1 = -1 ∧ 0 < n ∧
          setsockopt (i + (n - 1)) ≠ 0)) := by
  induction groups with
  | nil =>
    intro i
    exact ⟨0, Nat.le_refl _, rfl, fun j hj => absurd hj (by omega),
      Or.inl ⟨rfl, rfl, fun j hj => absurd hj (by omega)⟩⟩
  | cons g gs ih =>
    intro i
    by_cases hfail : setsockopt i ≠ 0
    · refine ⟨1, by simp, ?_, fun j hj => absurd hj (by omega), Or.inr ⟨?_, by omega, ?_⟩⟩
      · simp [mc_loop, hfail]
      · simp [mc_loop, hfail]
      · simpa using hfail
    · have hok : setsockopt i = 0 := not_not.mp hfail
      obtain ⟨n, hn, hcalls, hprev, hres⟩ := ih (i + 1)
      have h1 : (mc_loop optname setsockopt i (g :: gs)).1 =
          (mc_loop optname setsockopt (i + 1) gs).1 := by
        simp [mc_loop, hok]
      have h2 : (mc_loop optname setsockopt i (g :: gs)).2 =
          { optname := optname, group := g } :: (mc_loop optname setsockopt (i + 1) gs).2 := by
        simp [mc_loop, hok]
      refine ⟨n + 1, by simp; omega, ?_, ?_, ?_⟩
      · rw [h2, hcalls]
        simp
      · intro j hj
        cases j with
        | zero => simpa using hok
        | succ j =>
          have := hprev j (by omega)
          rw [← this]; congr 1; omega
      · rcases hres with ⟨hr, hn', hall⟩ | ⟨hr, hpos, hlast⟩
        · refine Or.inl ⟨h1.trans hr, by simp; omega, ?_⟩
          intro j hj
          cases j with
          | zero => simpa using hok
          | succ j =>
            have := hall j (by omega)
            rw [← this]; congr 1; omega
        · refine Or.inr ⟨h1.trans hr, by omega, ?_⟩
          intro h
          apply hlast
          rw [← h]; congr 1; omega

theorem mc_loop_zero_iff (optname : Nat) (setsockopt : Nat → Int) (groups : List Int) :
    (mc_loop optname setsockopt 0 groups).1 = 0 ↔ ∀ j, j < groups.length → setsockopt j = 0 := by
  obtain ⟨n, hn, _, _, hres⟩ := mc_loop_spec optname setsockopt groups 0
  rcases hres with ⟨hr, hn', hall⟩ | ⟨hr, hpos, hlast⟩
  · refine ⟨fun _ j hj => ?_, fun _ => hr⟩
    have := hall j (by omega)
    simpa using this
  · refine ⟨fun h => ?_, fun h => ?_⟩
    · rw [hr] at h; exact absurd h (by decide)
    · exfalso
      apply hlast
      have := h (n - 1) (by omega)
      simpa using this

/-- C14: for every list of groups and every outcome of the `setsockopt` calls,
`os_system_netlink_add_mc` and `os_system_netlink_drop_mc` make their calls in
list order, one per group, for the first `n` groups only, where every call
before the `n`-th succeeded; either all calls were made and succeeded and the
result is 0, or the `n`-th call failed, it was the last one made and the result
is -1; the result is 0 exactly when the call for every group succeeds.  The
calls made are all of the one kind (join, or leave): no group is undone. -/
theorem multicast_stops_at_first_failure (setsockopt : Nat → Int) :
    (∀ groups : List Nat, ∃ n, n ≤ groups.length ∧
      (os_system_netlink_add_mc setsockopt groups).2 =
        (groups.take n).map
          (fun g => ({ optname := NETLINK_ADD_MEMBERSHIP, group := Int.ofNat g } : Sockopt)) ∧
      (∀ j, j + 1 < n → setsockopt j = 0) ∧
      (((os_system_netlink_add_mc setsockopt groups).1 = 0 ∧ n = groups.length ∧
          ∀ j, j < n → setsockopt j = 0) ∨
        ((os_system_netlink_add_mc setsockopt groups).1 = -1 ∧ 0 < n ∧
          setsockopt (n - 1) ≠ 0)) ∧
      ((os_system_netlink_add_mc setsockopt groups).1 = 0 ↔
        ∀ j, j < groups.length → setsockopt j = 0)) ∧
    (∀ groups : List Int, ∃ n, n ≤ groups.length ∧
      (os_system_netlink_drop_mc setsockopt groups).2 =
        (groups.take n).map
          (fun g => ({ optname := NETLINK_DROP_MEMBERSHIP, group := g } : Sockopt)) ∧
      (∀ j, j + 1 < n → setsockopt j = 0) ∧
      (((os_system_netlink_drop_mc setsockopt groups).1 = 0 ∧ n = groups.length ∧
          ∀ j, j < n → setsockopt j = 0) ∨
        ((os_system_netlink_drop_mc setsockopt groups).1 = -1 ∧ 0 < n ∧
          setsockopt (n - 1) ≠ 0)) ∧
      ((os_system_netlink_drop_mc setsockopt groups).1 = 0 ↔
        ∀ j, j < groups.length → setsockopt j = 0)) := by
  constructor
  · intro groups
    obtain ⟨n, hn, hcalls, hprev, hres⟩ :=
      mc_loop_spec NETLINK_ADD_MEMBERSHIP setsockopt (groups.map Int.ofNat) 0
    have hiff := mc_loop_zero_iff NETLINK_ADD_MEMBERSHIP setsockopt (groups.map Int.ofNat)
    rw [List.length_map] at hn hres hiff
    simp only [Nat.zero_add] at hprev hres
    refine ⟨n, hn, ?_, hprev, hres, hiff⟩
    unfold os_system_netlink_add_mc
    rw [hcalls, ← List.map_take, List.map_map]
    rfl
  · intro groups
    obtain ⟨n, hn, hcalls, hprev, hres⟩ :=
      mc_loop_spec NETLINK_DROP_MEMBERSHIP setsockopt groups 0
    have hiff := mc_loop_zero_iff NETLINK_DROP_MEMBERSHIP setsockopt groups
    simp only [Nat.zero_add] at hprev hres
    exact ⟨n, hn, hcalls, hprev, hres, hiff⟩

/-! ## Write-ready events -/

theorem send_nl_in_transit (c : Nat) (nl : os_system_netlink) (nl_hdr : Mem) (alloc_ok : Bool) :
    (os_system_netlink_send c nl nl_hdr alloc_ok).nl.msg_in_transit = nl.msg_in_transit := rfl

theorem send_all_in_transit (msgs : List (Mem × Bool)) :
    ∀ (c : Nat) (nl : os_system_netlink),
      (send_all c nl msgs).1.msg_in_transit = nl.msg_in_transit := by
  induction msgs with
  | nil => intro c nl; rfl
  | cons m ms ih =>
    intro c nl
    simp only [send_all]
    rw [ih, send_nl_in_transit]

theorem flush_success (k : Kernel) (s : State) (hok : 0 < k.sendmsg_ret) :
    _flush_netlink_buffer k s = .ok
      { nl := { s.nl with out := [], socket_event_write := false,
                          msg_in_transit := s.nl.msg_in_transit + 1, timeout_active := true },
        queue := s.queue, calls := s.calls, sys := s.sys ++ [Syscall.sendmsg s.nl.out] } := by
  unfold _flush_netlink_buffer
  simp only []
  rw [if_neg (by omega)]
  rfl

/-- C12 as amended: after any number of `os_system_netlink_send` calls on a
handler with in-transit count 0, one flush whose `sendmsg` succeeds leaves the
in-transit count at 1: the flush counts itself once, not the messages it
carries. -/
theorem flush_counts_once (c : Nat) (nl : os_system_netlink) (msgs : List (Mem × Bool))
    (k : Kernel) (queue : List (List Byte)) (calls : List Callback) (sys : List Syscall)
    (hidle : nl.msg_in_transit = 0) (hok : 0 < k.sendmsg_ret) :
    ∃ s', _flush_netlink_buffer k
        { nl := (send_all c nl msgs).1, queue := queue, calls := calls, sys := sys } = .ok s' ∧
      s'.nl.msg_in_transit = 1 := by
  refine ⟨_, flush_success k _ hok, ?_⟩
  simp only []
  rw [send_all_in_transit, hidle]

/-- C12 as amended, at a concrete run: two bare headers sent on an idle
handler, then flushed with a successful `sendmsg`. -/
theorem flush_counts_once_witness :
    ∃ s', _flush_netlink_buffer ⟨4096, fun _ => true, 32, 0⟩
        { nl := (send_all 0 ⟨[], mem_of [], 0, 0, false, false, false, false, false, false⟩
            [(mem_of [16, 0, 0, 0, 24], true), (mem_of [16, 0, 0, 0, 26], true)]).1,
          queue := [], calls := [], sys := [] } = .ok s' ∧
      s'.nl.msg_in_transit = 1 :=
  flush_counts_once 0 ⟨[], mem_of [], 0, 0, false, false, false, false, false, false⟩
    [(mem_of [16, 0, 0, 0, 24], true), (mem_of [16, 0, 0, 0, 26], true)]
    ⟨4096, fun _ => true, 32, 0⟩ [] [] [] rfl (by decide)

/-- C12 as stated fails: after `k = 2` sends on an idle handler with an empty
outbound buffer and one successful flush, the in-transit count is 1, not 2. -/
theorem flush_counts_once_counterexample :
    ([(mem_of [16, 0, 0, 0, 24], true), (mem_of [16, 0, 0, 0, 26], true)] :
      List (Mem × Bool)).length = 2 ∧
    transit_of (_flush_netlink_buffer ⟨4096, fun _ => true, 32, 0⟩
        { nl := (send_all 0 ⟨[], mem_of [], 0, 0, false, false, false, false, false, false⟩
            [(mem_of [16, 0, 0, 0, 24], true), (mem_of [16, 0, 0, 0, 26], true)]).1,
          queue := [], calls := [], sys := [] }) = some (1, true) := by
  decide

/-- C16: a write-ready event (no read event with it) whose `sendmsg` succeeds
returns, whatever the outbound buffer held, with the outbound buffer empty,
write interest withdrawn, the in-transit count one more than before, the
timeout armed, and no callback invoked; `sendmsg` was given the buffer. -/
theorem write_event_success (fuel : Nat) (k : Kernel) (s : State) (hok : 0 < k.sendmsg_ret) :
    ∃ s', _netlink_handler fuel k s false true = .ok s' ∧
      s'.nl.out = [] ∧ s'.nl.socket_event_write = false ∧
      s'.nl.msg_in_transit = s.nl.msg_in_transit + 1 ∧ s'.nl.timeout_active = true ∧
      s'.calls = s.calls ∧ s'.sys = s.sys ++ [Syscall.sendmsg s.nl.out] := by
  refine ⟨{ nl := { s.nl with out := [], socket_event_write := false,
                              msg_in_transit := s.nl.msg_in_transit + 1,
                              timeout_active := true },
            queue := s.queue, calls := s.calls,
            sys := s.sys ++ [Syscall.sendmsg s.nl.out] }, ?_, rfl, rfl, rfl, rfl, rfl, rfl⟩
  unfold _netlink_handler
  simp only [if_true, flush_success k s hok, Bool.not_false]

/-- C16, at a concrete handler: three bytes queued, one message already in
transit, `sendmsg` returning 3. -/
theorem write_event_success_witness :
    ∃ s', _netlink_handler 1 ⟨4096, fun _ => true, 3, 0⟩
        ⟨⟨[1, 2, 3], mem_of [], 4096, 1, false, true, true, true, true, false⟩, [], [], []⟩
        false true = .ok s' ∧
      s'.nl.out = [] ∧ s'.nl.socket_event_write = false ∧
      s'.nl.msg_in_transit = 1 + 1 ∧ s'.nl.timeout_active = true ∧
      s'.calls = [] ∧ s'.sys = [] ++ [Syscall.sendmsg [1, 2, 3]] :=
  write_event_success 1 ⟨4096, fun _ => true, 3, 0⟩
    ⟨⟨[1, 2, 3], mem_of [], 4096, 1, false, true, true, true, true, false⟩, [], [], []⟩
    (by decide)

/-- C17, evaluated: a handler with three bytes queued, `cb_error` registered
and nothing in transit gets a write-ready event whose `sendmsg` fails with
`errno` 11.  `cb_error` is invoked once with 11 and the in-transit count stays
0, but the buffer and write interest are kept: the next write-ready event hands
the same three bytes to `sendmsg` again. -/
theorem write_event_failure_retries :
    calls_of (_netlink_handler 1 ⟨4096, fun _ => true, -1, 11⟩
        ⟨⟨[1, 2, 3], mem_of [], 4096, 0, false, true, true, true, true, false⟩, [], [], []⟩
        false true) = some [Callback.error 0 11] ∧
    transit_of (_netlink_handler 1 ⟨4096, fun _ => true, -1, 11⟩
        ⟨⟨[1, 2, 3], mem_of [], 4096, 0, false, true, true, true, true, false⟩, [], [], []⟩
        false true) = some (0, false) ∧
    sys_of (then_event (_netlink_handler 1 ⟨4096, fun _ => true, -1, 11⟩
        ⟨⟨[1, 2, 3], mem_of [], 4096, 0, false, true, true, true, true, false⟩, [], [], []⟩
        false true)
      (fun s => _netlink_handler 1 ⟨4096, fun _ => true, 3, 0⟩ s false true))
      = some [Syscall.sendmsg [1, 2, 3], Syscall.sendmsg [1, 2, 3]] := by
  decide

/-! ## The receive cycle, with its system calls -/

theorem rcv_consume_trace (fuel : Nat) (k : Kernel) (s : State) (d : List Byte)
    (rest : List (List Byte)) (hq : s.queue = d :: rest) (hlen : d.length ≤ s.nl.in_len) :
    ∃ s1, netlink_rcv_retry (fuel + 1) k s false = .ok (some d.length, s1) ∧
      Received s s1 d rest ∧ s1.nl.in_len = s.nl.in_len ∧
      s1.sys = s.sys ++ [Syscall.recvmsg s.nl.in_len false] := by
  unfold netlink_rcv_retry
  simp only [hq]
  have h1 : ¬ (s.nl.in_len < min d.length s.nl.in_len ∨ decide (s.nl.in_len < d.length) = true) := by
    simp only [decide_eq_true_eq]; omega
  rw [if_neg h1]
  simp only [Bool.false_eq_true, if_false]
  rw [Nat.min_eq_left hlen]
  exact ⟨_, rfl, ⟨rfl, rfl, fun i hi => recv_copy_apply _ _ _ _ hlen hi,
    rfl, rfl, rfl, rfl, rfl, rfl, rfl, rfl⟩, rfl, rfl⟩

theorem Received_of_step (s s' s1 : State) (d : List Byte) (rest : List (List Byte))
    (h : Received s' s1 d rest) (hcalls : s'.calls = s.calls) (hout : s'.nl.out = s.nl.out)
    (htr : s'.nl.msg_in_transit = s.nl.msg_in_transit)
    (hta : s'.nl.timeout_active = s.nl.timeout_active)
    (hsw : s'.nl.socket_event_write = s.nl.socket_event_write)
    (hcm : s'.nl.cb_message = s.nl.cb_message) (hce : s'.nl.cb_error = s.nl.cb_error)
    (hcd : s'.nl.cb_done = s.nl.cb_done) (hct : s'.nl.cb_timeout = s.nl.cb_timeout) :
    Received s s1 d rest := by
  obtain ⟨h1, h2, h3, h4, h5, h6, h7, h8, h9, h10, h11⟩ := h
  exact ⟨h1, h2.trans hcalls, h3, h4.trans hout, h5.trans htr, h6.trans hta, h7.trans hsw,
    h8.trans hcm, h9.trans hce, h10.trans hcd, h11.trans hct⟩

theorem rcv_peek_trace (k : Kernel) (d : List Byte) (rest : List (List Byte))
    (hrealloc : ∀ n, k.realloc_ok n = true) :
    ∀ (kk fuel : Nat) (s : State), s.queue = d :: rest →
      d.length ≤ s.nl.in_len + kk * k.pagesize →
      (∀ j, j < kk → s.nl.in_len + j * k.pagesize < d.length) →
      kk + 2 ≤ fuel →
      ∃ s1, netlink_rcv_retry fuel k s true = .ok (some d.length, s1) ∧
        Received s s1 d rest ∧ s1.nl.in_len = s.nl.in_len + kk * k.pagesize ∧
        s1.sys = s.sys ++
          (List.range (kk + 1)).map
            (fun i => Syscall.recvmsg (s.nl.in_len + i * k.pagesize) true) ++
          [Syscall.recvmsg (s.nl.in_len + kk * k.pagesize) false] := by
  intro kk
  induction kk with
  | zero =>
    intro fuel s hq hle _ hfuel
    obtain ⟨f, rfl⟩ : ∃ f, fuel = f + 1 + 1 := ⟨fuel - 2, by omega⟩
    have hlen : d.length ≤ s.nl.in_len := by simpa using hle
    unfold netlink_rcv_retry
    simp only [hq]
    have h1 : ¬ (s.nl.in_len < min d.length s.nl.in_len ∨
        decide (s.nl.in_len < d.length) = true) := by
      simp only [decide_eq_true_eq]; omega
    rw [if_neg h1]
    simp only [if_true]
    obtain ⟨s1, hs1, hr, hin, hsys⟩ := rcv_consume_trace f k
      { nl := { out := s.nl.out, in_ := recv_copy s.nl.in_ s.nl.in_len d,
                in_len := s.nl.in_len, msg_in_transit := s.nl.msg_in_transit,
                timeout_active := s.nl.timeout_active,
                socket_event_write := s.nl.socket_event_write,
                cb_message := s.nl.cb_message, cb_error := s.nl.cb_error,
                cb_done := s.nl.cb_done, cb_timeout := s.nl.cb_timeout },
        queue := d :: rest, calls := s.calls,
        sys := s.sys ++ [Syscall.recvmsg s.nl.in_len true] }
      d rest rfl hlen
    refine ⟨s1, hs1, Received_of_step _ _ _ _ _ hr rfl rfl rfl rfl rfl rfl rfl rfl rfl, ?_, ?_⟩
    · rw [hin]; simp
    · rw [hsys]; simp [List.range_succ]
  | succ kk ih =>
    intro fuel s hq hle hlt hfuel
    obtain ⟨f, rfl⟩ : ∃ f, fuel = f + 1 := ⟨fuel - 1, by omega⟩
    have hsmall : s.nl.in_len < d.length := by
      have := hlt 0 (by omega)
      simpa using this
    unfold netlink_rcv_retry
    simp only [hq]
    have h1 : (s.nl.in_len < min d.length s.nl.in_len ∨
        decide (s.nl.in_len < d.length) = true) := by
      right; simp only [decide_eq_true_eq]; exact hsmall
    rw [if_pos h1, hrealloc]
    simp only [if_true]
    have hmul : (kk + 1) * k.pagesize = kk * k.pagesize + k.pagesize := Nat.succ_mul _ _
    obtain ⟨s1, hs1, hr, hin, hsys⟩ := ih f
      { nl := { out := s.nl.out, in_ := recv_copy s.nl.in_ s.nl.in_len d,
                in_len := s.nl.in_len + k.pagesize, msg_in_transit := s.nl.msg_in_transit,
                timeout_active := s.nl.timeout_active,
                socket_event_write := s.nl.socket_event_write,
                cb_message := s.nl.cb_message, cb_error := s.nl.cb_error,
                cb_done := s.nl.cb_done, cb_timeout := s.nl.cb_timeout },
        queue := d :: rest, calls := s.calls,
        sys := s.sys ++ [Syscall.recvmsg s.nl.in_len true] }
      rfl (by simp only []; omega)
      (by
        intro j hj
        have := hlt (j + 1) (by omega)
        rw [Nat.succ_mul] at this
        simp only []
        omega)
      (by omega)
    refine ⟨s1, hs1, Received_of_step _ _ _ _ _ hr rfl rfl rfl rfl rfl rfl rfl rfl rfl, ?_, ?_⟩
    · rw [hin]; simp only []; omega
    · rw [hsys]
      simp only []
      rw [List.range_succ_eq_map (kk + 1), List.map_cons, List.map_map]
      have e1 : (fun i => Syscall.recvmsg (s.nl.in_len + k.pagesize + i * k.pagesize) true) =
          ((fun i => Syscall.recvmsg (s.nl.in_len + i * k.pagesize) true) ∘ Nat.succ) := by
        funext i
        simp only [Function.comp, Nat.succ_eq_add_one, Nat.succ_mul]
        congr 1
        omega
      have e2 : s.nl.in_len + k.pagesize + kk * k.pagesize =
          s.nl.in_len + (kk + 1) * k.pagesize := by omega
      rw [e1, e2]
      simp

/-- C18: with a datagram of `n` bytes heading the queue, a receive buffer of
capacity `c`, a page size `p > 0` and `realloc` never failing, the receive
cycle of a read event returns once the fuel is at least `n + 2`.  For the least
`k` with `c + k*p ≥ n` it makes `k + 1` reads with `MSG_PEEK` into buffers of
`c`, `c + p`, ..., `c + k*p` bytes, growing by `p` after each of the first `k`
(those into a buffer smaller than the datagram), then exactly one read without
`MSG_PEEK` into the buffer of `c + k*p` bytes, which returns `n`, leaves all `n`
bytes of the datagram in the buffer and takes the datagram off the queue. -/
theorem receive_cycle_grows_by_pages (k : Kernel) (s : State) (d : List Byte)
    (rest : List (List Byte)) (fuel : Nat)
    (hq : s.queue = d :: rest) (hpage : 0 < k.pagesize)
    (hrealloc : ∀ n, k.realloc_ok n = true) (hfuel : d.length + 2 ≤ fuel) :
    ∃ kk s1, d.length ≤ s.nl.in_len + kk * k.pagesize ∧
      (∀ j, d.length ≤ s.nl.in_len + j * k.pagesize → kk ≤ j) ∧
      netlink_rcv_retry fuel k s true = .ok (some d.length, s1) ∧
      s1.nl.in_len = s.nl.in_len + kk * k.pagesize ∧
      s1.sys = s.sys ++
        (List.range (kk + 1)).map
          (fun i => Syscall.recvmsg (s.nl.in_len + i * k.pagesize) true) ++
        [Syscall.recvmsg (s.nl.in_len + kk * k.pagesize) false] ∧
      (∀ i, i < d.length → s1.nl.in_ i = datagram_mem d i) ∧
      s1.queue = rest ∧ s1.calls = s.calls := by
  have hex : ∃ j, d.length ≤ s.nl.in_len + j * k.pagesize :=
    ⟨d.length, le_trans (Nat.le_mul_of_pos_right _ hpage) (Nat.le_add_left _ _)⟩
  have hmin : ∀ j, j < Nat.find hex → s.nl.in_len + j * k.pagesize < d.length :=
    fun j hj => Nat.lt_of_not_le (Nat.find_min hex hj)
  have hle : Nat.find hex ≤ d.length :=
    Nat.find_min' hex (le_trans (Nat.le_mul_of_pos_right _ hpage) (Nat.le_add_left _ _))
  obtain ⟨s1, hs1, hr, hin, hsys⟩ :=
    rcv_peek_trace k d rest hrealloc (Nat.find hex) fuel s hq (Nat.find_spec hex) hmin (by omega)
  exact ⟨Nat.find hex, s1, Nat.find_spec hex, fun j hj => Nat.find_min' hex hj, hs1, hin, hsys,
    hr.2.2.1, hr.1, hr.2.1⟩

/-- C18, at a concrete cycle: a 36-byte datagram, an 8-byte buffer and a page
size of 16, where the buffer is grown twice. -/
theorem receive_cycle_grows_by_pages_witness :
    ∃ kk s1,
      ([36, 0, 0, 0, 2, 0, 0, 0, 7, 0, 0, 0, 0, 0, 0, 0, 239, 255, 255, 255,
        16, 0, 0, 0, 24, 0, 1, 0, 7, 0, 0, 0, 0, 0, 0, 0] : List Byte).length ≤ 8 + kk * 16 ∧
      (∀ j, ([36, 0, 0, 0, 2, 0, 0, 0, 7, 0, 0, 0, 0, 0, 0, 0, 239, 255, 255, 255,
        16, 0, 0, 0, 24, 0, 1, 0, 7, 0, 0, 0, 0, 0, 0, 0] : List Byte).length ≤ 8 + j * 16 →
          kk ≤ j) ∧
      netlink_rcv_retry 38 ⟨16, fun _ => true, 0, 0⟩
        ⟨⟨[], mem_of [], 8, 1, true, false, true, true, true, false⟩,
          [[36, 0, 0, 0, 2, 0, 0, 0, 7, 0, 0, 0, 0, 0, 0, 0, 239, 255, 255, 255,
            16, 0, 0, 0, 24, 0, 1, 0, 7, 0, 0, 0, 0, 0, 0, 0]], [], []⟩ true
        = .ok (some ([36, 0, 0, 0, 2, 0, 0, 0, 7, 0, 0, 0, 0, 0, 0, 0, 239, 255, 255, 255,
            16, 0, 0, 0, 24, 0, 1, 0, 7, 0, 0, 0, 0, 0, 0, 0] : List Byte).length, s1) ∧
      s1.nl.in_len = 8 + kk * 16 ∧
      s1.sys = [] ++ (List.range (kk + 1)).map (fun i => Syscall.recvmsg (8 + i * 16) true) ++
        [Syscall.recvmsg (8 + kk * 16) false] ∧
      (∀ i, i < ([36, 0, 0, 0, 2, 0, 0, 0, 7, 0, 0, 0, 0, 0, 0, 0, 239, 255, 255, 255,
          16, 0, 0, 0, 24, 0, 1, 0, 7, 0, 0, 0, 0, 0, 0, 0] : List Byte).length →
        s1.nl.in_ i = datagram_mem [36, 0, 0, 0, 2, 0, 0, 0, 7, 0, 0, 0, 0, 0, 0, 0,
          239, 255, 255, 255, 16, 0, 0, 0, 24, 0, 1, 0, 7, 0, 0, 0, 0, 0, 0, 0] i) ∧
      s1.queue = [] ∧ s1.calls = [] :=
  receive_cycle_grows_by_pages ⟨16, fun _ => true, 0, 0⟩
    ⟨⟨[], mem_of [], 8, 1, true, false, true, true, true, false⟩,
      [[36, 0, 0, 0, 2, 0, 0, 0, 7, 0, 0, 0, 0, 0, 0, 0, 239, 255, 255, 255,
        16, 0, 0, 0, 24, 0, 1, 0, 7, 0, 0, 0, 0, 0, 0, 0]], [], []⟩
    [36, 0, 0, 0, 2, 0, 0, 0, 7, 0, 0, 0, 0, 0, 0, 0, 239, 255, 255, 255,
      16, 0, 0, 0, 24, 0, 1, 0, 7, 0, 0, 0, 0, 0, 0, 0]
    [] 38 rfl (by decide) (fun _ => rfl) (by decide)

/-! ## The Idle invariant -/

theorem job_finished_idle (nl : os_system_netlink) : idle_inv (_netlink_job_finished nl) := by
  unfold idle_inv _netlink_job_finished
  by_cases h0 : nl.msg_in_transit > 0
  · simp only [h0, if_true]
    split
    · intro _; rfl
    · rename_i h; intro h'; exact absurd h' h
  · simp only [h0, if_false]
    split
    · intro _; rfl
    · rename_i h; intro h'; exact absurd h' h

theorem handle_nl_err_idle (s : State) (nh : Nat) : idle_inv (_handle_nl_err s nh).nl := by
  rw [(handle_nl_err_state s nh).1]
  exact job_finished_idle _

theorem rcv_retry_transit (k : Kernel) :
    ∀ (fuel : Nat) (s : State) (peek : Bool) (r : Option Nat) (s1 : State),
      netlink_rcv_retry fuel k s peek = .ok (r, s1) →
      s1.nl.msg_in_transit = s.nl.msg_in_transit ∧
      s1.nl.timeout_active = s.nl.timeout_active := by
  intro fuel
  induction fuel with
  | zero =>
    intro s peek r s1 h
    simp [netlink_rcv_retry] at h
  | succ fuel ih =>
    intro s peek r s1 h
    unfold netlink_rcv_retry at h
    simp only [] at h
    split at h
    · simp only [Except.ok.injEq, Prod.mk.injEq] at h
      obtain ⟨_, rfl⟩ := h
      exact ⟨rfl, rfl⟩
    · split at h
      · split at h
        · obtain ⟨h1, h2⟩ := ih _ _ _ _ h
          exact ⟨h1, h2⟩
        · simp only [Except.ok.injEq, Prod.mk.injEq] at h
          obtain ⟨_, rfl⟩ := h
          exact ⟨rfl, rfl⟩
      · split at h
        · obtain ⟨h1, h2⟩ := ih _ _ _ _ h
          exact ⟨h1, h2⟩
        · simp only [Except.ok.injEq, Prod.mk.injEq] at h
          obtain ⟨_, rfl⟩ := h
          exact ⟨rfl, rfl⟩

theorem frame_body_idle (w w' : Walk) (nh : Nat) (h : frame_body w nh = .ok w')
    (hinv : idle_inv w.s.nl) : idle_inv w'.s.nl := by
  unfold frame_body at h
  simp only [] at h
  generalize (if nh = 0 then nlmsg_seq w.s.nl.in_ nh else w.current_seq) = cs at h
  by_cases hc : cs ≠ nlmsg_seq w.s.nl.in_ nh ∧ w.trigger_is_done = true
  · rw [if_pos hc] at h
    by_cases hd : w.s.nl.cb_done = true
    · rw [if_pos hd] at h
      simp only [] at h
      split_ifs at h <;> cases h <;> first | exact hinv | exact handle_nl_err_idle _ _
    · rw [if_neg hd] at h
      cases h
  · rw [if_neg hc] at h
    simp only [] at h
    split_ifs at h <;> cases h <;> first | exact hinv | exact handle_nl_err_idle _ _

theorem frame_walk_idle :
    ∀ (fuel nh len : Nat) (w w' : Walk), frame_walk fuel nh len w = .ok w' →
      idle_inv w.s.nl → idle_inv w'.s.nl := by
  intro fuel
  induction fuel with
  | zero =>
    intro nh len w w' h hinv
    unfold frame_walk at h
    split at h
    · exact absurd h (by simp)
    · cases h; exact hinv
  | succ fuel ih =>
    intro nh len w w' h hinv
    unfold frame_walk at h
    split at h
    · split at h
      · exact absurd h (by simp)
      · rename_i w1 hb
        exact ih _ _ _ _ h (frame_body_idle w w1 nh hb hinv)
    · cases h; exact hinv

theorem handler_finish_keeps_idle (w : Walk) (s' : State) (h : handler_finish w = .ok s')
    (hinv : idle_inv w.s.nl) : idle_inv s'.nl := by
  unfold handler_finish at h
  simp only [] at h
  have key : ∀ s1 : State, idle_inv s1.nl →
      (if oonf_timer_is_active s1.nl = true then
        (Except.ok { s1 with nl := oonf_timer_set s1.nl } : Except Fault State)
       else .ok s1) = .ok s' → idle_inv s'.nl := by
    intro s1 hs1 h
    split_ifs at h with hact
    · cases h
      intro h0
      unfold oonf_timer_is_active at hact
      have := hs1 h0
      rw [this] at hact
      exact absurd hact (by simp)
    · cases h; exact hs1
  by_cases ht : w.trigger_is_done = true
  · rw [if_pos ht] at h
    by_cases hd : (oonf_timer_stop w.s.nl).cb_done = true
    · rw [if_pos hd] at h
      exact key _ (job_finished_idle _) h
    · rw [if_neg hd] at h
      cases h
  · rw [if_neg ht] at h
    exact key _ hinv h

theorem flush_keeps_idle (k : Kernel) (s s' : State) (h : _flush_netlink_buffer k s = .ok s')
    (hinv : idle_inv s.nl) : idle_inv s'.nl := by
  unfold _flush_netlink_buffer at h
  simp only [] at h
  split_ifs at h
  · cases h; exact hinv
  · cases h
    intro h0
    simp [oonf_timer_set, oonf_socket_set_write] at h0

theorem handler_keeps_idle (fuel : Nat) (k : Kernel) (s s' : State)
    (event_read event_write : Bool)
    (h : _netlink_handler fuel k s event_read event_write = .ok s')
    (hinv : idle_inv s.nl) : idle_inv s'.nl := by
  unfold _netlink_handler at h
  split at h
  · exact absurd h (by simp)
  · rename_i s0 hfl
    have hs0 : idle_inv s0.nl := by
      split at hfl
      · exact flush_keeps_idle k s s0 hfl hinv
      · cases hfl; exact hinv
    split at h
    · cases h; exact hs0
    · split at h
      · exact absurd h (by simp)
      · rename_i s1 hr
        cases h
        obtain ⟨h1, h2⟩ := rcv_retry_transit k _ _ _ _ _ hr
        intro h0
        rw [h2]
        exact hs0 (h1 ▸ h0)
      · rename_i ret s1 hr
        obtain ⟨h1, h2⟩ := rcv_retry_transit k _ _ _ _ _ hr
        have hs1 : idle_inv s1.nl := by
          intro h0
          rw [h2]
          exact hs0 (h1 ▸ h0)
        split at h
        · exact absurd h (by simp)
        · rename_i w hw
          exact handler_finish_keeps_idle w s' h (frame_walk_idle _ _ _ _ _ hw hs1)

theorem timer_expire_idle (s : State) : idle_inv (oonf_timer_expire s).nl := by
  unfold idle_inv oonf_timer_expire _cb_handle_netlink_timeout oonf_timer_stop
  intro _
  simp only []
  split <;> rfl

theorem netlink_add_keeps_timer (e : OpenEnv) (nl : os_system_netlink) :
    (os_system_netlink_add e nl).2.msg_in_transit = nl.msg_in_transit ∧
    (os_system_netlink_add e nl).2.timeout_active = nl.timeout_active := by
  unfold os_system_netlink_add
  simp only []
  split_ifs <;> exact ⟨rfl, rfl⟩

theorem ok_of_transit_of (r : Except Fault State) (v : Nat × Bool) (h : transit_of r = some v) :
    ∃ s', r = .ok s' ∧ (s'.nl.msg_in_transit, s'.nl.timeout_active) = v := by
  cases r with
  | error e => simp [transit_of] at h
  | ok s' => exact ⟨s', rfl, by simpa [transit_of] using h⟩

/-- C19: the Idle predicate, in-transit count 0 implies timeout not armed, is
an invariant of the handler.  It holds after `os_system_netlink_add` on a
handler whose timeout was not started; from a state where it holds it holds
again after a flush, failed or successful, after `_netlink_handler` for any
event flags and any datagram queue, and after the expiry of the timeout; and
`_netlink_job_finished` establishes it from any state, so a completion that
brings the count to 0 stops the timeout, which the rest of the read event does
not arm again. -/
theorem idle_is_invariant (fuel : Nat) (k : Kernel) (s : State)
    (event_read event_write : Bool) (hinv : idle_inv s.nl) :
    (∀ e nl0, nl0.timeout_active = false → idle_inv (os_system_netlink_add e nl0).2) ∧
    (∀ s', _flush_netlink_buffer k s = .ok s' → idle_inv s'.nl) ∧
    (∀ s', _netlink_handler fuel k s event_read event_write = .ok s' → idle_inv s'.nl) ∧
    idle_inv (oonf_timer_expire s).nl ∧
    idle_inv (_netlink_job_finished s.nl) ∧
    (∀ s', _netlink_handler fuel k s event_read event_write = .ok s' →
      s'.nl.msg_in_transit = 0 → s'.nl.timeout_active = false) := by
  refine ⟨?_, ?_, ?_, timer_expire_idle s, job_finished_idle _, ?_⟩
  · intro e nl0 h0 _
    rw [(netlink_add_keeps_timer e nl0).2]
    exact h0
  · intro s' h
    exact flush_keeps_idle k s s' h hinv
  · intro s' h
    exact handler_keeps_idle fuel k s s' event_read event_write h hinv
  · intro s' h
    exact handler_keeps_idle fuel k s s' event_read event_write h hinv

/-- C19, at a concrete read event: one exchange in transit, the timeout armed,
and a datagram of one done frame with sequence number 7; the handler returns
with the count at 0 and the timeout stopped. -/
theorem idle_is_invariant_witness :
    idle_inv (⟨[], mem_of [], 4096, 1, true, false, true, true, true, false⟩ :
      os_system_netlink) ∧
    ∃ s', _netlink_handler 40 ⟨4096, fun _ => true, 0, 0⟩
        ⟨⟨[], mem_of [], 4096, 1, true, false, true, true, true, false⟩,
          [[16, 0, 0, 0, 3, 0, 0, 0, 7, 0, 0, 0, 0, 0, 0, 0]], [], []⟩ true false = .ok s' ∧
      (s'.nl.msg_in_transit, s'.nl.timeout_active) = (0, false) ∧ idle_inv s'.nl := by
  refine ⟨by decide, ?_⟩
  obtain ⟨s', hs', hv⟩ := ok_of_transit_of
    (_netlink_handler 40 ⟨4096, fun _ => true, 0, 0⟩
      ⟨⟨[], mem_of [], 4096, 1, true, false, true, true, true, false⟩,
        [[16, 0, 0, 0, 3, 0, 0, 0, 7, 0, 0, 0, 0, 0, 0, 0]], [], []⟩ true false)
    (0, false) (by decide)
  exact ⟨s', hs', hv,
    (idle_is_invariant 40 ⟨4096, fun _ => true, 0, 0⟩
      ⟨⟨[], mem_of [], 4096, 1, true, false, true, true, true, false⟩,
        [[16, 0, 0, 0, 3, 0, 0, 0, 7, 0, 0, 0, 0, 0, 0, 0]], [], []⟩ true false
      (by decide)).2.2.1 s' hs'⟩

/-! ## Runs on which the code and the specification part -/

/-- C11, evaluated: one exchange in transit and a datagram of a done frame
with sequence number 1 followed by an ordinary frame with sequence number 2.
`cb_done(1)` is invoked when the second frame is reached, one completion is
signalled, and the in-transit count is still 1 when the handler returns. -/
theorem boundary_done_keeps_in_transit :
    calls_of (_netlink_handler 40 ⟨4096, fun _ => true, 0, 0⟩
        ⟨⟨[], mem_of [], 4096, 1, true, false, true, true, true, false⟩,
          [[16, 0, 0, 0, 3, 0, 0, 0, 1, 0, 0, 0, 0, 0, 0, 0,
            16, 0, 0, 0, 20, 0, 0, 0, 2, 0, 0, 0, 0, 0, 0, 0]], [], []⟩ true false)
      = some [Callback.done 1, Callback.message 16] ∧
    transit_of (_netlink_handler 40 ⟨4096, fun _ => true, 0, 0⟩
        ⟨⟨[], mem_of [], 4096, 1, true, false, true, true, true, false⟩,
          [[16, 0, 0, 0, 3, 0, 0, 0, 1, 0, 0, 0, 0, 0, 0, 0,
            16, 0, 0, 0, 20, 0, 0, 0, 2, 0, 0, 0, 0, 0, 0, 0]], [], []⟩ true false)
      = some (1, true) := by
  decide

/-- C13, evaluated: two exchanges in transit, the timeout armed, and a
datagram of one done frame with sequence number 7.  The handler returns with
one exchange still in transit and the timeout stopped. -/
theorem done_stops_timer_while_pending :
    armed_inv (⟨[], mem_of [], 4096, 2, true, false, true, true, true, false⟩ :
      os_system_netlink) ∧
    calls_of (_netlink_handler 40 ⟨4096, fun _ => true, 0, 0⟩
        ⟨⟨[], mem_of [], 4096, 2, true, false, true, true, true, false⟩,
          [[16, 0, 0, 0, 3, 0, 0, 0, 7, 0, 0, 0, 0, 0, 0, 0]], [], []⟩ true false)
      = some [Callback.done 7] ∧
    transit_of (_netlink_handler 40 ⟨4096, fun _ => true, 0, 0⟩
        ⟨⟨[], mem_of [], 4096, 2, true, false, true, true, true, false⟩,
          [[16, 0, 0, 0, 3, 0, 0, 0, 7, 0, 0, 0, 0, 0, 0, 0]], [], []⟩ true false)
      = some (1, false) := by
  decide

/-- C15, evaluated: a datagram of two done frames, the first with sequence
number 1 and the second with sequence number 2.  `cb_done` is invoked twice,
both times with 1: the second done frame is finalized under the sequence
number of the first frame of the datagram. -/
theorem second_done_reported_with_first_seq :
    calls_of (_netlink_handler 40 ⟨4096, fun _ => true, 0, 0⟩
        ⟨⟨[], mem_of [], 4096, 2, true, false, true, true, true, false⟩,
          [[16, 0, 0, 0, 3, 0, 0, 0, 1, 0, 0, 0, 0, 0, 0, 0,
            16, 0, 0, 0, 3, 0, 0, 0, 2, 0, 0, 0, 0, 0, 0, 0]], [], []⟩ true false)
      = some [Callback.done 1, Callback.done 1] := by
  decide

/-- C20, evaluated: the inbound buffer still holds two 20-byte frames of an
earlier datagram when a datagram of 17 bytes arrives, a single frame whose
length field is 17.  The frame at offset 0 is forwarded, `NLMSG_NEXT` takes
`NLMSG_ALIGN(17) = 20` from the 17 bytes left, the `size_t` wraps, and the
leftover frame at offset 20, behind the 17 bytes received, is forwarded too. -/
theorem unaligned_last_frame_walks_on :
    ([17, 0, 0, 0, 20, 0, 0, 0, 9, 0, 0, 0, 0, 0, 0, 0, 255] : List Byte).length = 17 ∧
    calls_of (_netlink_handler 40 ⟨4096, fun _ => true, 0, 0⟩
        ⟨⟨[], mem_of [20, 0, 0, 0, 20, 0, 0, 0, 5, 0, 0, 0, 0, 0, 0, 0, 1, 2, 3, 4,
                     20, 0, 0, 0, 20, 0, 0, 0, 5, 0, 0, 0, 0, 0, 0, 0, 5, 6, 7, 8],
           4096, 1, true, false, true, true, true, false⟩,
          [[17, 0, 0, 0, 20, 0, 0, 0, 9, 0, 0, 0, 0, 0, 0, 0, 255]], [], []⟩ true false)
      = some [Callback.message 0, Callback.message 20] := by
  decide

/-! ## Finalizing an exchange -/

/-- C21: `_netlink_job_finished` sets the in-transit count to
`max (old count - 1) 0`: a count of 0 stays 0, in particular in the state a
timeout expiry leaves, and a positive count goes down by one.  The timeout is
stopped when the resulting count is 0 and is left as it was when the resulting
count is not 0; nothing else of the handler changes. -/
theorem job_finished_saturates (nl : os_system_netlink) (s : State) :
    ((_netlink_job_finished nl).msg_in_transit : Int) = max ((nl.msg_in_transit : Int) - 1) 0 ∧
    (nl.msg_in_transit = 0 → (_netlink_job_finished nl).msg_in_transit = 0) ∧
    (_netlink_job_finished (_cb_handle_netlink_timeout s).nl).msg_in_transit = 0 ∧
    ((_netlink_job_finished nl).msg_in_transit = 0 →
      (_netlink_job_finished nl).timeout_active = false) ∧
    ((_netlink_job_finished nl).msg_in_transit ≠ 0 →
      (_netlink_job_finished nl).timeout_active = nl.timeout_active) ∧
    (_netlink_job_finished nl).out = nl.out ∧
    (_netlink_job_finished nl).in_ = nl.in_ ∧
    (_netlink_job_finished nl).in_len = nl.in_len ∧
    (_netlink_job_finished nl).socket_event_write = nl.socket_event_write ∧
    (_netlink_job_finished nl).cb_message = nl.cb_message ∧
    (_netlink_job_finished nl).cb_error = nl.cb_error ∧
    (_netlink_job_finished nl).cb_done = nl.cb_done ∧
    (_netlink_job_finished nl).cb_timeout = nl.cb_timeout := by
  have hcount := job_finished_in_transit nl
  refine ⟨?_, ?_, ?_, ?_, ?_, ?_⟩
  · rw [hcount]; omega
  · intro h0; rw [hcount, h0]
  · rw [job_finished_in_transit]
    simp only [_cb_handle_netlink_timeout]
  · exact job_finished_idle nl
  · intro hne
    unfold _netlink_job_finished at hne ⊢
    by_cases h0 : nl.msg_in_transit > 0
    · simp only [h0, if_true] at hne ⊢
      split_ifs at hne ⊢ with h1
      · exact absurd (by simp only [oonf_timer_stop]; exact h1) hne
      · rfl
    · simp only [h0, if_false] at hne ⊢
      split_ifs at hne ⊢ with h1
      · exact absurd (by simp only [oonf_timer_stop]; exact h1) hne
      · rfl
  · unfold _netlink_job_finished
    simp only []
    split_ifs <;> exact ⟨rfl, rfl, rfl, rfl, rfl, rfl, rfl, rfl⟩

/-- C21, at two concrete handlers: a completion arriving with the count at 0
and the timeout still armed leaves the count at 0 and stops the timeout; one
arriving with the count at 2 leaves it at 1 and the timeout as it was. -/
theorem job_finished_saturates_witness :
    ((_netlink_job_finished
        ⟨[], mem_of [], 4096, 0, true, false, true, true, true, false⟩).msg_in_transit = 0 ∧
      (_netlink_job_finished
        ⟨[], mem_of [], 4096, 0, true, false, true, true, true, false⟩).timeout_active = false) ∧
    ((_netlink_job_finished
        ⟨[], mem_of [], 4096, 2, true, false, true, true, true, false⟩).msg_in_transit : Int)
        = max ((2 : Nat) - 1 : Int) 0 ∧
    (_netlink_job_finished
        ⟨[], mem_of [], 4096, 2, true, false, true, true, true, false⟩).timeout_active = true :=
  ⟨⟨(job_finished_saturates ⟨[], mem_of [], 4096, 0, true, false, true, true, true, false⟩
        ⟨⟨[], mem_of [], 0, 0, false, false, false, false, false, false⟩, [], [], []⟩).2.1 rfl,
    (job_finished_saturates ⟨[], mem_of [], 4096, 0, true, false, true, true, true, false⟩
        ⟨⟨[], mem_of [], 0, 0, false, false, false, false, false, false⟩, [], [], []⟩).2.2.2.1
      (by decide)⟩,
   (job_finished_saturates ⟨[], mem_of [], 4096, 2, true, false, true, true, true, false⟩
        ⟨⟨[], mem_of [], 0, 0, false, false, false, false, false, false⟩, [], [], []⟩).1,
   (job_finished_saturates ⟨[], mem_of [], 4096, 2, true, false, true, true, true, false⟩
        ⟨⟨[], mem_of [], 0, 0, false, false, false, false, false, false⟩, [], [], []⟩).2.2.2.2.1
      (by decide)⟩

end Netlink
